import Mathlib

/-!
Shallow embedding of the RAG core of the first-tech-challenge-manual
repository: the vector store (src/lib/services/vectorStore.ts), the Claude
tool-calling orchestrator (src/lib/services/claude.ts) and the RAG answer
pipeline (src/lib/services/rag.ts).

Modelling conventions:
- JavaScript numbers are modelled as real numbers (ℝ); token counts,
  list lengths and page numbers as ℕ.
- Functions that can `throw` return `Except String α`.
- The mutable module state of vectorStore.ts (the in-memory record list)
  and the closure state of the tool handler (the `allChunksUsed` array)
  are threaded explicitly.
- Effectful collaborators (the embedding model, the Anthropic chat API)
  are parameters: an embedder `String → List ℝ` and an LLM oracle that maps
  the request (system message, conversation, whether tools are attached)
  to a response.  Console logging and progress callbacks are not modelled.
- JavaScript number-to-string formatting (`score.toFixed(2)`) is not
  representable over ℝ and is passed in as an abstract `fmtScore` function;
  no verified property depends on it.
-/

/-- An apostrophe character, spliced into the string literals taken from
the source prompts. -/
def apos : String := Char.toString (Char.ofNat 39)

/-! ## Data model -/

/-- Chunk metadata (rag.ts `RetrievedChunk.metadata`): all fields optional,
as in the source interface. -/
structure ChunkMetadata where
  page : Option Nat
  source : Option String
  chunkIndex : Option Nat
deriving DecidableEq

/-- One indexed chunk of vectorStore.ts (`VectorRecord`). -/
structure VectorRecord where
  content : String
  embedding : List ℝ
  metadata : ChunkMetadata

/-- Ephemeral retrieval result of rag.ts (`RetrievedChunk`). -/
structure RetrievedChunk where
  text : String
  score : ℝ
  metadata : ChunkMetadata

/-- One deduplicated citation of rag.ts (`RAGResponse.sources` element). -/
structure SourceEntry where
  source : String
  page : Nat
  score : ℝ

/-- Result of `queryVectorStore`: three parallel arrays. -/
structure QueryResult where
  documents : List String
  scores : List ℝ
  metadatas : List ChunkMetadata

/-- Result record of rag.ts `answerQuestion` (`RAGResponse`). -/
structure RAGResponse where
  answer : String
  sources : List SourceEntry
  contextsUsed : Nat
  tokensEstimate : Nat

/-- RAG configuration constants of rag.ts (TOP_K_RESULTS,
MIN_SIMILARITY_SCORE, MAX_CONTEXT_TOKENS), passed explicitly. -/
structure RAGConfig where
  topK : Nat
  minScore : ℝ
  maxContextTokens : Nat

/-- Default configuration values of rag.ts (env defaults "5", "0.3", "3000"). -/
noncomputable def defaultRAGConfig : RAGConfig := ⟨5, 3/10, 3000⟩

/-- JavaScript `x || dflt` on an optional string: `undefined` and the empty
string are falsy. -/
def jsOrString (s : Option String) (dflt : String) : String :=
  match s with
  | none => dflt
  | some v => if v = "" then dflt else v

/-- JavaScript `x || dflt` on an optional number: `undefined` and `0` are
falsy. -/
def jsOrNat (p : Option Nat) (dflt : Nat) : Nat :=
  match p with
  | none => dflt
  | some v => if v = 0 then dflt else v

/-- JavaScript display of `metadata.page || "?"`. -/
def pageDisplay (p : Option Nat) : String :=
  match p with
  | none => "?"
  | some v => if v = 0 then "?" else toString v

/-! ## claude.ts: token estimation -/

/-- claude.ts `estimateTokens`: `Math.ceil(text.length / 4)`. -/
def estimateTokens (text : String) : Nat := (text.length + 3) / 4

/-! ## vectorStore.ts: cosine similarity -/

/-- The accumulated `dotProduct` loop of vectorStore.ts `cosineSimilarity`
(also covers `normA`/`normB` as `dotp a a`/`dotp b b`). -/
def dotp (a b : List ℝ) : ℝ := (List.zipWith (fun x y => x * y) a b).sum

/-- The value computed by `cosineSimilarity` once the length guard passed:
`dotProduct / (Math.sqrt(normA) * Math.sqrt(normB))`. -/
noncomputable def cosineValue (a b : List ℝ) : ℝ :=
  dotp a b / (Real.sqrt (dotp a a) * Real.sqrt (dotp b b))

/-- vectorStore.ts `cosineSimilarity`: throws when the lengths differ. -/
noncomputable def cosineSimilarity (a b : List ℝ) : Except String ℝ :=
  if a.length = b.length then Except.ok (cosineValue a b)
  else Except.error "Vectors must have the same length"

/-! ## vectorStore.ts: store operations -/

/-- vectorStore.ts `getVectorStore`, with the module state (`vectorStore`)
and the persisted snapshot (the parsed `data.vectors` field, `none` when no
snapshot file exists, `some []` when the file exists but holds no vectors)
made explicit.  Returns the new in-memory state and whether the snapshot
file was read from disk. -/
def getVectorStore (disk : Option (List VectorRecord)) (store : List VectorRecord) :
    List VectorRecord × Bool :=
  if 0 < store.length then (store, false)
  else
    match disk with
    | some vectors => (vectors, true)
    | none => (store, false)

/-- vectorStore.ts `addDocuments`: a plain indexed loop pushing one record
per document; no validation of any kind.  Out-of-range indexing (shorter
`embeddings`/`metadatas` arrays) is modelled with defaults; the verified
properties only use equal-length batches.  The progress callback is pure
logging and is not modelled. -/
def addDocuments (store : List VectorRecord) (documents : List String)
    (embeddings : List (List ℝ)) (metadatas : List ChunkMetadata) :
    List VectorRecord :=
  store ++ (List.range documents.length).map (fun i =>
    ⟨documents.getD i "", embeddings.getD i [], metadatas.getD i ⟨none, none, none⟩⟩)

/-- Mapping a throwing function over a list, stopping at the first throw:
the semantics of calling `cosineSimilarity` inside `vectorStore.map`. -/
noncomputable def mapOrThrow {α β : Type} (f : α → Except String β) :
    List α → Except String (List β)
  | [] => Except.ok []
  | x :: rest =>
    match f x with
    | Except.error e => Except.error e
    | Except.ok y =>
      match mapOrThrow f rest with
      | Except.error e => Except.error e
      | Except.ok ys => Except.ok (y :: ys)

/-- One element of the `similarities` array built by `queryVectorStore`. -/
structure SimEntry where
  index : Nat
  similarity : ℝ
  content : String
  metadata : ChunkMetadata

noncomputable instance : DecidableRel (fun a b : SimEntry => b.similarity ≤ a.similarity) :=
  fun a b => Real.decidableLE _ _

noncomputable instance : DecidableRel (fun a b : SourceEntry => b.score ≤ a.score) :=
  fun a b => Real.decidableLE _ _

noncomputable instance : DecidableRel (fun a b : RetrievedChunk => b.score ≤ a.score) :=
  fun a b => Real.decidableLE _ _

/-- vectorStore.ts `queryVectorStore`: empty store short-circuits to empty
arrays; otherwise compute a similarity entry per record (a throw inside the
map escapes), sort by descending similarity (JavaScript `sort` with a
numeric comparator is stable, modelled by a stable insertion sort) and take
the first `topK`. -/
noncomputable def queryVectorStore (store : List VectorRecord)
    (queryEmbedding : List ℝ) (topK : Nat) : Except String QueryResult :=
  if store.length = 0 then Except.ok ⟨[], [], []⟩
  else
    match mapOrThrow (fun p =>
      match cosineSimilarity queryEmbedding p.2.embedding with
      | Except.error e => Except.error e
      | Except.ok sim => Except.ok (SimEntry.mk p.1 sim p.2.content p.2.metadata))
      store.enum with
    | Except.error e => Except.error e
    | Except.ok similarities =>
      let topResults :=
        (List.insertionSort (fun a b => b.similarity ≤ a.similarity) similarities).take topK
      Except.ok ⟨topResults.map (fun r => r.content),
        topResults.map (fun r => r.similarity),
        topResults.map (fun r => r.metadata)⟩

/-! ## claude.ts: message and tool types -/

inductive ChatRole where
  | system
  | user
  | assistant
deriving DecidableEq

/-- One content block of an Anthropic response: text, or a tool-use request
(`id`, `name`, `input`).  The only tool input field the repository reads is
`input.query`, a string, so the input is modelled as that string. -/
inductive ContentBlock where
  | text : String → ContentBlock
  | toolUse : String → String → String → ContentBlock
deriving DecidableEq

/-- One `tool_result` block sent back to the model. -/
structure ToolResult where
  toolUseId : String
  content : String
  isError : Bool
deriving DecidableEq

/-- Message content: a plain string, the content blocks of an assistant
turn, or the tool results of a user turn. -/
inductive MessageContent where
  | str : String → MessageContent
  | blocks : List ContentBlock → MessageContent
  | toolResults : List ToolResult → MessageContent
deriving DecidableEq

structure ChatMessage where
  role : ChatRole
  content : MessageContent
deriving DecidableEq

/-- Stop reason of an Anthropic response; the code only distinguishes
`end_turn`. -/
inductive StopReason where
  | endTurn
  | toolUse
  | other
deriving DecidableEq

structure LLMResponse where
  stopReason : StopReason
  content : List ContentBlock
deriving DecidableEq

/-- The LLM backend as an oracle: system message, conversation so far, and
whether the `tools` field is attached to the request. -/
def LLMFun : Type := Option MessageContent → List ChatMessage → Bool → LLMResponse

/-- claude.ts `ClaudeTool` (the JSON input schema carries no logic and is
not modelled). -/
structure ClaudeTool where
  name : String
  description : String

/-- claude.ts `generateChatCompletionWithTools` options. -/
structure ToolCallOptions where
  temperature : Option ℝ
  maxTokens : Option Nat
  maxIterations : Option Nat

/-- The default used for `options?.maxIterations ?? 5` in claude.ts. -/
def defaultMaxIterations : Nat := 5

/-! ## claude.ts: the tool-calling orchestrator -/

/-- First `text` content block of a response
(`response.content.find(c => c.type === "text")`). -/
def findTextBlock (content : List ContentBlock) : Option String :=
  content.findSome? (fun b =>
    match b with
    | ContentBlock.text t => some t
    | ContentBlock.toolUse _ _ _ => none)

/-- All `tool_use` blocks of a response, as (id, name, input) triples. -/
def toolUseBlocksOf (content : List ContentBlock) : List (String × String × String) :=
  content.filterMap (fun b =>
    match b with
    | ContentBlock.text _ => none
    | ContentBlock.toolUse tid name input => some (tid, name, input))

/-- Execute the requested tool calls in order, collecting one
`tool_result` per call; a handler error is captured as an `is_error`
result, never propagated (claude.ts lines 141-169).  The handler threads
explicit state (the closure state of the rag.ts handler). -/
def execTools {σ : Type} (handler : σ → String → String → Except String String × σ) :
    List (String × String × String) → σ → List ToolResult × σ
  | [], s => ([], s)
  | (tid, name, input) :: rest, s =>
    match handler s name input with
    | (Except.ok r, s1) =>
      let (others, s2) := execTools handler rest s1
      (⟨tid, r, false⟩ :: others, s2)
    | (Except.error e, s1) =>
      let (others, s2) := execTools handler rest s1
      (⟨tid, "Error: " ++ e, true⟩ :: others, s2)

/-- Result of one orchestrator run: the answer (or the thrown error), the
final handler state, and one entry per LLM call made (`true` when the
`tools` field was attached to the request). -/
structure ToolLoopResult (σ : Type) where
  result : Except String String
  state : σ
  calls : List Bool

/-- The `while (iterationCount < maxIterations)` loop of
`generateChatCompletionWithTools`, with `fuel` the remaining iterations;
at fuel 0 the final call without tools is made (claude.ts lines 178-207). -/
def toolLoop {σ : Type} (llm : LLMFun)
    (handler : σ → String → String → Except String String × σ)
    (system : Option MessageContent) :
    Nat → List ChatMessage → σ → List Bool → ToolLoopResult σ
  | 0, msgs, s, calls =>
    let resp := llm system msgs false
    let calls1 := calls ++ [false]
    match findTextBlock resp.content with
    | some t => ⟨Except.ok t, s, calls1⟩
    | none =>
      ⟨Except.error "Failed to get text response after max iterations and final attempt",
        s, calls1⟩
  | n + 1, msgs, s, calls =>
    let resp := llm system msgs true
    let calls1 := calls ++ [true]
    let earlyText :=
      if resp.stopReason = StopReason.endTurn then findTextBlock resp.content else none
    match earlyText with
    | some t => ⟨Except.ok t, s, calls1⟩
    | none =>
      let toolUses := toolUseBlocksOf resp.content
      if toolUses = [] then
        match findTextBlock resp.content with
        | some t => ⟨Except.ok t, s, calls1⟩
        | none => ⟨Except.error "No text content and no tool use in response", s, calls1⟩
      else
        let msgs1 := msgs ++ [⟨ChatRole.assistant, MessageContent.blocks resp.content⟩]
        let (results, s1) := execTools handler toolUses s
        let msgs2 := msgs1 ++ [⟨ChatRole.user, MessageContent.toolResults results⟩]
        toolLoop llm handler system n msgs2 s1 calls1

/-- claude.ts `generateChatCompletionWithTools`: extract the system
message, keep the other messages as the conversation, and run the bounded
tool loop.  `tools` is the schema list attached to every in-loop request;
it carries no logic beyond being attached or not, which the call trace
records. -/
def generateChatCompletionWithTools {σ : Type} (llm : LLMFun)
    (messages : List ChatMessage) (tools : List ClaudeTool)
    (handler : σ → String → String → Except String String × σ)
    (options : ToolCallOptions) (s0 : σ) : ToolLoopResult σ :=
  let maxIterations := options.maxIterations.getD defaultMaxIterations
  let systemMessage := messages.find? (fun m => m.role = ChatRole.system)
  let conversationMessages := messages.filter (fun m => ¬ (m.role = ChatRole.system))
  toolLoop llm handler (systemMessage.map (fun m => m.content))
    maxIterations conversationMessages s0 []

/-! ## rag.ts: prompts -/

/-- rag.ts `buildSystemPrompt` base prompt (apostrophes spliced via
`apos`). -/
def basePrompt : String :=
  "You are an expert assistant for the FIRST Tech Challenge (FTC) Decode Competition. Your role is to help teams understand the game manual by answering questions accurately and concisely.\n\nGuidelines:\n- Answer based ONLY on the provided context from the official manual\n- Be precise and cite specific rules when relevant (e.g., \"According to rule R103...\")\n- If the context doesn" ++ apos ++
  "t contain enough information, say so clearly\n- Use clear, concise language that teams can understand quickly\n- For technical details, be specific (measurements, point values, time limits, etc.)\n- If multiple manual versions are referenced, note any differences\n\nFormatting:\n- **ALWAYS use Markdown formatting** for better readability\n- Use **bold** for important terms, rules, and values\n- Use bullet points (- or *) for lists\n- Use numbered lists (1., 2., 3.) for sequential steps\n- Use > blockquotes for direct rule citations\n- Use `code` formatting for technical terms or measurements\n- Use ### headers for major sections in longer answers\n- Use tables when comparing multiple items\n\nExample formatting:\n\"According to **Rule R103**, robots must not exceed:\n- **18 inches** width\n- **18 inches** depth  \n- **18 inches** height at start\n\n> R103: Robot size is limited to 18\" √ó 18\" √ó 18\" at the start of the match.\n\n**Important**: Size is measured at the start configuration only.\"\n\nRemember: Teams rely on accurate information for competition, so precision is critical."

/-- rag.ts `buildSystemPrompt` tool-usage addendum. -/
def toolUsagePrompt : String :=
  "\n\n**Important Tool Usage:**\nWhen you encounter references to sections, rules, or topics that are NOT in your provided context (e.g., \"see section 10.5.2\" or \"refer to rule R205\"), you MUST use the " ++ apos ++ "search_manual" ++ apos ++
  " tool to retrieve that information before answering.\n\nSteps to follow when you see a reference to missing information:\n1. Identify the specific section, rule, or topic being referenced\n2. Use the search_manual tool with a clear query (e.g., \"section 10.5.2\" or \"rule R205\")\n3. Wait for the tool results to be provided\n4. Incorporate the retrieved information into your answer\n5. Cite the section/rule properly in your response\n\nExample: If you see \"Teams should follow the scoring guidelines in section 10.5.2\" but section 10.5.2 is not in your context, use search_manual with query \"section 10.5.2 scoring guidelines\" to retrieve it.\n\n**Do NOT** simply state \"I don" ++ apos ++
  "t have information about section X\" if you haven" ++ apos ++
  "t tried using the search_manual tool first."

/-- rag.ts `buildSystemPrompt`. -/
def buildSystemPrompt (withTools : Bool) : String :=
  if withTools then basePrompt ++ toolUsagePrompt else basePrompt

/-- One formatted context block (the shared shape of the template literals
in `buildUserPrompt`, tag "Context", and `searchManualForContext`, tag
"Result"). -/
def formatChunkBlock (fmtScore : ℝ → String) (tag : String) (idx : Nat)
    (ctx : RetrievedChunk) : String :=
  "[" ++ tag ++ " " ++ toString (idx + 1) ++ " - " ++
  jsOrString ctx.metadata.source "Unknown" ++ ", Page " ++
  pageDisplay ctx.metadata.page ++ ", Relevance: " ++ fmtScore ctx.score ++
  "]\n" ++ ctx.text

/-- rag.ts `buildUserPrompt`. -/
def buildUserPrompt (fmtScore : ℝ → String) (question : String)
    (contexts : List RetrievedChunk) : String :=
  let contextText := String.intercalate "\n\n---\n\n"
    (contexts.enum.map (fun p => formatChunkBlock fmtScore "Context" p.1 p.2))
  "Context from the FTC Decode Manual:\n\n" ++ contextText ++
  "\n\n---\n\nQuestion: " ++ question ++
  "\n\nPlease provide a clear, accurate answer based on the context above. If you reference specific information, mention which context or page it came from."

/-- The "could not find relevant information" answer returned by
`answerQuestion` on both retrieval-empty paths (rag.ts lines 301-312 and
337-348; the two literals are identical). -/
def noInfoMessage : String :=
  "I apologize, but I couldn" ++ apos ++
  "t find any relevant information about that topic in the FTC DECODE Competition Manual. This could mean:\n\n- The topic might not be covered in the manual\n- It might be phrased differently in the official documentation\n- It could be in a section I don" ++ apos ++
  "t have access to\n\n**Suggestions:**\n- Try rephrasing your question with different keywords\n- Check if you" ++ apos ++
  "re asking about a specific rule number (e.g., \"What is rule R103?\")\n- Browse the official FIRST Tech Challenge manual directly for topics outside competition rules\n\nIf you believe this information should be in the manual, please try asking your question in a different way!"

/-! ## rag.ts: context selection -/

/-- Structured chunks from a query result
(`results.documents.map((doc, idx) => ...)`, with `metadatas[idx] || {}`). -/
def chunksOfResult (results : QueryResult) : List RetrievedChunk :=
  results.documents.enum.map (fun p =>
    ⟨p.2, results.scores.getD p.1 0, results.metadatas.getD p.1 ⟨none, none, none⟩⟩)

/-- The greedy budget-packing loop of `filterAndRankChunks`: take chunks
while they fit, `break` at the first chunk that would exceed the budget. -/
def packGreedy (maxTokens : Nat) : List RetrievedChunk → Nat → List RetrievedChunk
  | [], _ => []
  | c :: rest, total =>
    if total + estimateTokens c.text ≤ maxTokens then
      c :: packGreedy maxTokens rest (total + estimateTokens c.text)
    else []

/-- rag.ts `filterAndRankChunks`: drop chunks below the minimum similarity
score, sort the survivors by descending score (stable), then greedily pack
into the token budget. -/
noncomputable def filterAndRankChunks (minScore : ℝ) (chunks : List RetrievedChunk)
    (maxTokens : Nat) : List RetrievedChunk :=
  let filtered := chunks.filter (fun c => decide (minScore ≤ c.score))
  if filtered.length = 0 then []
  else
    let sorted := List.insertionSort (fun a b => b.score ≤ a.score) filtered
    packGreedy maxTokens sorted 0

/-! ## rag.ts: source extraction -/

/-- Effective source of a chunk (`chunk.metadata.source || "Unknown"`). -/
def effSource (c : RetrievedChunk) : String := jsOrString c.metadata.source "Unknown"

/-- Effective page of a chunk (`chunk.metadata.page || 0`). -/
def effPage (c : RetrievedChunk) : Nat := jsOrNat c.metadata.page 0

/-- The string key of the source map: `` `${source}:${page}` ``. -/
def sourceKey (source : String) (page : Nat) : String :=
  source ++ ":" ++ toString page

/-- The map key computed for a chunk inside `extractSources`. -/
def chunkKey (c : RetrievedChunk) : String := sourceKey (effSource c) (effPage c)

/-- `Map.get` on the insertion-ordered association list modelling the
JavaScript `Map`. -/
def lookupEntry (k : String) : List (String × Nat × ℝ) → Option (Nat × ℝ)
  | [] => none
  | (k1, v) :: rest => if k1 = k then some v else lookupEntry k rest

/-- `Map.set` on the insertion-ordered association list: update in place,
else append. -/
def setEntry (k : String) (v : Nat × ℝ) : List (String × Nat × ℝ) → List (String × Nat × ℝ)
  | [] => [(k, v)]
  | (k1, v1) :: rest => if k1 = k then (k, v) :: rest else (k1, v1) :: setEntry k v rest

/-- The chunk loop of `extractSources` building `sourceMap`: keep an entry
per key, replacing it only when a later chunk has a strictly greater
score. -/
noncomputable def sourceMapFold : List RetrievedChunk → List (String × Nat × ℝ) →
    List (String × Nat × ℝ)
  | [], m => m
  | chunk :: rest, m =>
    let key := chunkKey chunk
    match lookupEntry key m with
    | none => sourceMapFold rest (setEntry key (effPage chunk, chunk.score) m)
    | some (_, s) =>
      if s < chunk.score then sourceMapFold rest (setEntry key (effPage chunk, chunk.score) m)
      else sourceMapFold rest m

/-- JavaScript `key.split(":")[0]`: for the single-character separator this
is the prefix of the key before its first colon. -/
def splitFirstSegment (s : String) : String :=
  String.mk (s.data.takeWhile (fun c => ¬ (c = ':')))

/-- rag.ts `extractSources`: fold the chunks into the keyed map, project
each entry to `{ source: key.split(":")[0], page, score }`, and sort by
descending score. -/
noncomputable def extractSources (chunks : List RetrievedChunk) : List SourceEntry :=
  List.insertionSort (fun a b => b.score ≤ a.score)
    ((sourceMapFold chunks []).map (fun e => ⟨splitFirstSegment e.1, e.2.1, e.2.2⟩))

/-! ## rag.ts: the search tool -/

/-- The chunks surviving the minimum-similarity filter inside
`searchManualForContext`. -/
noncomputable def toolFilteredChunks (minScore : ℝ) (results : QueryResult) :
    List RetrievedChunk :=
  (chunksOfResult results).filter (fun c => decide (minScore ≤ c.score))

/-- rag.ts `searchManualForContext`: embed the query, query the store, and
format the above-threshold results; both empty outcomes return an
explanatory text payload instead of throwing.  A throw from the embedding
or the query propagates (to be captured by the orchestrator as a tool
error). -/
noncomputable def searchManualForContext (cfg : RAGConfig) (store : List VectorRecord)
    (embed : String → List ℝ) (fmtScore : ℝ → String) (query : String)
    (topK : Nat) : Except String String :=
  match queryVectorStore store (embed query) topK with
  | Except.error e => Except.error e
  | Except.ok results =>
    if results.documents.length = 0 then
      Except.ok ("No information found for query: \"" ++ query ++
        "\". The topic may not be covered in the available manual sections.")
    else
      let filtered := toolFilteredChunks cfg.minScore results
      if filtered.length = 0 then
        Except.ok ("No highly relevant information found for query: \"" ++ query ++
          "\". The similarity scores were too low.")
      else
        let contextText := String.intercalate "\n\n---\n\n"
          (filtered.enum.map (fun p => formatChunkBlock fmtScore "Result" p.1 p.2))
        Except.ok ("Additional context retrieved for \"" ++ query ++ "\":\n\n" ++
          contextText)

/-- rag.ts `searchManualTool` definition (the JSON schema is not
modelled). -/
def searchManualTool : ClaudeTool :=
  ⟨"search_manual",
    "Search the FTC DECODE Competition Manual for specific information. Use this when you encounter references to sections, rules, or topics that are not in your current context. Provide a clear, specific query describing what information you need (e.g., " ++ apos ++ "section 10.5.2" ++ apos ++ ", " ++ apos ++ "rule R205" ++ apos ++ ", " ++ apos ++ "autonomous scoring requirements" ++ apos ++ ")."⟩

/-- The rag.ts `toolHandler` closure, with the mutable `allChunksUsed`
array as explicit state: formats a search payload, then re-runs the same
query and appends the raw (unfiltered) results to `allChunksUsed`. -/
noncomputable def toolHandler (cfg : RAGConfig) (store : List VectorRecord)
    (embed : String → List ℝ) (fmtScore : ℝ → String)
    (s : List RetrievedChunk) (toolName : String) (input : String) :
    Except String String × List RetrievedChunk :=
  if toolName = "search_manual" then
    match searchManualForContext cfg store embed fmtScore input 5 with
    | Except.error e => (Except.error e, s)
    | Except.ok additionalContext =>
      match queryVectorStore store (embed input) 5 with
      | Except.error e => (Except.error e, s)
      | Except.ok results =>
        if 0 < results.documents.length then (Except.ok additionalContext, s ++ chunksOfResult results)
        else (Except.ok additionalContext, s)
  else (Except.error ("Unknown tool: " ++ toolName), s)

/-! ## rag.ts: the answer pipeline -/

inductive ConvRole where
  | user
  | assistant
deriving DecidableEq

structure ConversationMessage where
  role : ConvRole
  content : String

def chatRoleOf (r : ConvRole) : ChatRole :=
  match r with
  | ConvRole.user => ChatRole.user
  | ConvRole.assistant => ChatRole.assistant

/-- rag.ts `answerQuestion`: retrieve, filter/rank into the token budget,
build the prompts, run the tool-calling orchestrator (maxIterations 3)
with the search tool, and assemble the answer with deduplicated sources
from every chunk tracked in `allChunksUsed`. -/
noncomputable def answerQuestion (cfg : RAGConfig) (store : List VectorRecord)
    (embed : String → List ℝ) (llm : LLMFun) (fmtScore : ℝ → String)
    (question : String) (conversationHistory : List ConversationMessage) :
    Except String RAGResponse :=
  match queryVectorStore store (embed question) cfg.topK with
  | Except.error e => Except.error e
  | Except.ok results =>
    if results.documents.length = 0 then
      Except.ok ⟨noInfoMessage, [], 0, 0⟩
    else
      let retrievedChunks := chunksOfResult results
      let selectedChunks := filterAndRankChunks cfg.minScore retrievedChunks cfg.maxContextTokens
      if selectedChunks.length = 0 then
        Except.ok ⟨noInfoMessage, [], 0, 0⟩
      else
        let systemPrompt := buildSystemPrompt true
        let userPrompt := buildUserPrompt fmtScore question selectedChunks
        let totalTokensEstimate := estimateTokens systemPrompt + estimateTokens userPrompt
        let messages := ⟨ChatRole.system, MessageContent.str systemPrompt⟩ ::
          (conversationHistory.map (fun m =>
            ChatMessage.mk (chatRoleOf m.role) (MessageContent.str m.content))) ++
          [⟨ChatRole.user, MessageContent.str userPrompt⟩]
        let run := generateChatCompletionWithTools llm messages [searchManualTool]
          (toolHandler cfg store embed fmtScore) ⟨none, none, some 3⟩ selectedChunks
        match run.result with
        | Except.error e => Except.error e
        | Except.ok answer =>
          Except.ok ⟨answer, extractSources run.state, run.state.length, totalTokensEstimate⟩

/-! ## Order instances for the descending-score sorts -/

instance : IsTotal SimEntry (fun a b => b.similarity ≤ a.similarity) :=
  ⟨fun a b => le_total b.similarity a.similarity⟩

instance : IsTrans SimEntry (fun a b => b.similarity ≤ a.similarity) :=
  ⟨fun _ _ _ hab hbc => le_trans hbc hab⟩

instance : IsTotal SourceEntry (fun a b => b.score ≤ a.score) :=
  ⟨fun a b => le_total b.score a.score⟩

instance : IsTrans SourceEntry (fun a b => b.score ≤ a.score) :=
  ⟨fun _ _ _ hab hbc => le_trans hbc hab⟩

instance : IsTotal RetrievedChunk (fun a b => b.score ≤ a.score) :=
  ⟨fun a b => le_total b.score a.score⟩

instance : IsTrans RetrievedChunk (fun a b => b.score ≤ a.score) :=
  ⟨fun _ _ _ hab hbc => le_trans hbc hab⟩

/-- Keys of the association list modelling the JavaScript `Map`. -/
def mapKeys (m : List (String × Nat × ℝ)) : List String := m.map (fun e => e.1)

/-! ## Concrete fixtures for witnesses and counterexamples -/

/-- An LLM behaviour that requests a tool call on every request. -/
def llmAlwaysTool : LLMFun :=
  fun _ _ _ => ⟨StopReason.toolUse, [ContentBlock.toolUse "t1" "search_manual" "q"]⟩

/-- A handler that answers every tool call with a fixed payload. -/
def trivialHandler : Unit → String → String → Except String String × Unit :=
  fun s _ _ => (Except.ok "result", s)

/-- A one-message conversation. -/
def userHi : List ChatMessage := [⟨ChatRole.user, MessageContent.str "hi"⟩]

def metaA : ChunkMetadata := ⟨some 1, some "a", none⟩

def metaB : ChunkMetadata := ⟨some 2, some "b", none⟩

def metaC : ChunkMetadata := ⟨some 3, some "c", none⟩

def sampleRecord : VectorRecord := ⟨"chunk", [1], metaA⟩

/-- A chunk whose single token already exceeds a zero budget. -/
def bigChunk : RetrievedChunk := ⟨"abcd", 1, metaA⟩

/-- A chunk whose source identifier contains a colon. -/
def colonChunk : RetrievedChunk := ⟨"txt", 1, ⟨some 1, some "a:b", none⟩⟩

def dupChunk1 : RetrievedChunk := ⟨"t1", 1, metaA⟩

def dupChunk2 : RetrievedChunk := ⟨"t2", 0, metaA⟩

def axis1 : List ℝ := [1, 0, 0]

def axis2 : List ℝ := [0, 1, 0]

def axis3 : List ℝ := [0, 0, 1]

/-- A three-record store over orthogonal unit embeddings. -/
def cexStore : List VectorRecord := [⟨"A", axis1, metaA⟩, ⟨"B", axis2, metaB⟩, ⟨"C", axis3, metaC⟩]

/-- An embedder mapping the question to the first axis and every tool
query to the second axis. -/
def cexEmbed : String → List ℝ := fun q => if q = "Q" then axis1 else axis2

/-- An LLM behaviour that requests one `search_manual` round on the first
request and then finishes with text. -/
def cexLLM : LLMFun :=
  fun _ msgs _ =>
    if msgs.length = 1 then
      ⟨StopReason.toolUse, [ContentBlock.toolUse "t1" "search_manual" "R2"]⟩
    else ⟨StopReason.endTurn, [ContentBlock.text "ans"]⟩

def cexFmt : ℝ → String := fun _ => "s"

/-- A one-record store orthogonal to the query embedding below. -/
def wStore : List VectorRecord := [⟨"A", [1, 0], metaA⟩]

def wEmbed : String → List ℝ := fun _ => [0, 1]

def wLLM : LLMFun := fun _ _ _ => ⟨StopReason.endTurn, [ContentBlock.text "x"]⟩

/-- A store whose two records have different embedding dimensions. -/
def mixedStore : List VectorRecord := [⟨"a", [1], metaA⟩, ⟨"b", [1, 0], metaB⟩]

/-! ## Orchestrator call-trace lemmas -/

/-- Every run of the tool loop extends the trace by at most `fuel + 1`
calls: either it exits inside the loop after `k ≤ fuel` tool-attached
calls, or it exhausts the loop and makes the final no-tools call. -/
theorem toolLoop_calls {σ : Type} (llm : LLMFun)
    (handler : σ → String → String → Except String String × σ)
    (system : Option MessageContent) :
    ∀ (fuel : Nat) (msgs : List ChatMessage) (s : σ) (calls : List Bool),
      (∃ k, k ≤ fuel ∧
        (toolLoop llm handler system fuel msgs s calls).calls =
          calls ++ List.replicate k true) ∨
      (toolLoop llm handler system fuel msgs s calls).calls =
        calls ++ List.replicate fuel true ++ [false] := by
  intro fuel
  induction fuel with
  | zero =>
    intro msgs s calls
    right
    simp only [toolLoop]
    cases h : findTextBlock (llm system msgs false).content <;> simp [h]
  | succ n ih =>
    intro msgs s calls
    rcases hE : (if (llm system msgs true).stopReason = StopReason.endTurn
        then findTextBlock (llm system msgs true).content else none) with _ | t
    · by_cases hT : toolUseBlocksOf (llm system msgs true).content = []
      · left
        refine ⟨1, by omega, ?_⟩
        simp only [toolLoop, hE, hT, if_pos]
        cases h2 : findTextBlock (llm system msgs true).content <;> simp [h2]
      · rcases hex : execTools handler (toolUseBlocksOf (llm system msgs true).content) s
          with ⟨results, s1⟩
        have hrec := ih
          (msgs ++ [⟨ChatRole.assistant, MessageContent.blocks (llm system msgs true).content⟩]
            ++ [⟨ChatRole.user, MessageContent.toolResults results⟩]) s1 (calls ++ [true])
        have hgoal : (toolLoop llm handler system (n + 1) msgs s calls) =
            toolLoop llm handler system n
              (msgs ++ [⟨ChatRole.assistant, MessageContent.blocks (llm system msgs true).content⟩]
                ++ [⟨ChatRole.user, MessageContent.toolResults results⟩]) s1 (calls ++ [true]) := by
          simp only [toolLoop, hE, hT, hex, if_neg, List.append_assoc]
          simp
        rw [hgoal]
        rcases hrec with ⟨k, hk, hcalls⟩ | hcalls
        · left
          exact ⟨k + 1, by omega, by
            rw [hcalls, List.replicate_succ, List.append_assoc]
            simp⟩
        · right
          rw [hcalls, List.replicate_succ, List.append_assoc]
          simp
    · left
      refine ⟨1, by omega, ?_⟩
      simp only [toolLoop, hE]
      simp

/-- Shared call-count bound for the orchestrator, used by the claims about
termination and about the default iteration bound. -/
theorem generate_calls_bound {σ : Type} (llm : LLMFun)
    (messages : List ChatMessage) (tools : List ClaudeTool)
    (handler : σ → String → String → Except String String × σ)
    (options : ToolCallOptions) (s0 : σ) :
    (generateChatCompletionWithTools llm messages tools handler options s0).calls.length ≤
      options.maxIterations.getD defaultMaxIterations + 1 ∧
    ((generateChatCompletionWithTools llm messages tools handler options s0).calls.length =
        options.maxIterations.getD defaultMaxIterations + 1 →
      (generateChatCompletionWithTools llm messages tools handler options s0).calls.getLast? =
        some false) := by
  have h := toolLoop_calls llm handler
    ((messages.find? (fun m => m.role = ChatRole.system)).map (fun m => m.content))
    (options.maxIterations.getD defaultMaxIterations)
    (messages.filter (fun m => ¬ (m.role = ChatRole.system))) s0 []
  simp only [generateChatCompletionWithTools]
  rcases h with ⟨k, hk, hcalls⟩ | hcalls
  · rw [hcalls]
    simp only [List.nil_append, List.length_replicate]
    constructor
    · omega
    · intro hlen
      omega
  · rw [hcalls]
    simp only [List.nil_append]
    constructor
    · simp
    · intro _
      exact List.getLast?_concat _

/-- C2: for every LLM behaviour and tool handler, the orchestrator
generateChatCompletionWithTools makes at most maxIterations + 1 LLM calls,
and when it makes exactly maxIterations + 1 calls the last one is the
forced call without tools attached; it always terminates (it is a total
function of its inputs). -/
theorem C2_orchestrator_terminates {σ : Type} (llm : LLMFun)
    (messages : List ChatMessage) (tools : List ClaudeTool)
    (handler : σ → String → String → Except String String × σ)
    (options : ToolCallOptions) (s0 : σ) :
    (generateChatCompletionWithTools llm messages tools handler options s0).calls.length ≤
      options.maxIterations.getD defaultMaxIterations + 1 ∧
    ((generateChatCompletionWithTools llm messages tools handler options s0).calls.length =
        options.maxIterations.getD defaultMaxIterations + 1 →
      (generateChatCompletionWithTools llm messages tools handler options s0).calls.getLast? =
        some false) :=
  generate_calls_bound llm messages tools handler options s0

/-- Witness for C2 at a concrete always-tool LLM with maxIterations 2. -/
theorem C2_witness :
    (generateChatCompletionWithTools llmAlwaysTool userHi [searchManualTool]
        trivialHandler ⟨none, none, some 2⟩ ()).calls.length ≤
      (some 2 : Option Nat).getD defaultMaxIterations + 1 ∧
    ((generateChatCompletionWithTools llmAlwaysTool userHi [searchManualTool]
        trivialHandler ⟨none, none, some 2⟩ ()).calls.length =
        (some 2 : Option Nat).getD defaultMaxIterations + 1 →
      (generateChatCompletionWithTools llmAlwaysTool userHi [searchManualTool]
        trivialHandler ⟨none, none, some 2⟩ ()).calls.getLast? = some false) :=
  C2_orchestrator_terminates llmAlwaysTool userHi [searchManualTool]
    trivialHandler ⟨none, none, some 2⟩ ()

/-- C7 counterexample: with no maxIterations option supplied the
orchestrator makes 6 LLM calls against an always-tool model, not the 4 a
default bound of 3 would allow; the default is 5, not 3. -/
theorem C7_cex :
    (generateChatCompletionWithTools llmAlwaysTool userHi [searchManualTool]
        trivialHandler ⟨none, none, none⟩ ()).calls.length = 6 ∧
    defaultMaxIterations ≠ 3 := by
  constructor
  · rfl
  · decide

/-- C7 amended: when the caller does not supply a maxIterations option the
orchestrator falls back to defaultMaxIterations, which is 5 (the rag.ts
call sites pass maxIterations 3 explicitly); the call bound is then 5 + 1. -/
theorem C7_amended : defaultMaxIterations = 5 ∧
    ∀ {σ : Type} (llm : LLMFun) (messages : List ChatMessage)
      (tools : List ClaudeTool)
      (handler : σ → String → String → Except String String × σ)
      (options : ToolCallOptions) (s0 : σ),
      options.maxIterations = none →
      (generateChatCompletionWithTools llm messages tools handler options s0).calls.length ≤
        defaultMaxIterations + 1 := by
  refine ⟨rfl, ?_⟩
  intro σ llm messages tools handler options s0 hnone
  have h := (generate_calls_bound llm messages tools handler options s0).1
  rwa [hnone] at h

/-- Witness for C7_amended at the concrete always-tool run. -/
theorem C7_witness : defaultMaxIterations = 5 ∧
    (generateChatCompletionWithTools llmAlwaysTool userHi [searchManualTool]
        trivialHandler ⟨none, none, none⟩ ()).calls.length ≤ defaultMaxIterations + 1 :=
  ⟨C7_amended.1,
    C7_amended.2 llmAlwaysTool userHi [searchManualTool] trivialHandler
      ⟨none, none, none⟩ () rfl⟩

/-- C8 counterexample: with a persisted snapshot holding zero vectors, the
first call loads it, the resulting in-memory state stays empty, and the
second call reads the disk again instead of returning memoized state. -/
theorem C8_cex :
    getVectorStore (some ([] : List VectorRecord)) [] = ([], true) ∧
    (getVectorStore (some ([] : List VectorRecord))
      ((getVectorStore (some ([] : List VectorRecord)) []).1)).2 = true :=
  ⟨rfl, rfl⟩

/-- C8 amended: getVectorStore is idempotent only once the in-memory store
is non-empty: any call finding a non-empty store returns it unchanged
without touching the disk, and a first call with an existing snapshot
loads that snapshot (reading the disk).  When the loaded store stays
empty (empty snapshot, or no snapshot) every later call consults the disk
again. -/
theorem C8_amended :
    (∀ (disk : Option (List VectorRecord)) (store : List VectorRecord),
      store ≠ [] → getVectorStore disk store = (store, false)) ∧
    (∀ vectors : List VectorRecord, getVectorStore (some vectors) [] = (vectors, true)) := by
  constructor
  · intro disk store hne
    have hpos : 0 < store.length := List.length_pos.mpr hne
    simp [getVectorStore, hpos]
  · intro vectors
    simp [getVectorStore]

/-- Witness for C8_amended at a concrete non-empty store and snapshot. -/
theorem C8_witness :
    getVectorStore none [sampleRecord] = ([sampleRecord], false) ∧
    getVectorStore (some [sampleRecord]) [] = ([sampleRecord], true) :=
  ⟨C8_amended.1 none [sampleRecord] (List.cons_ne_nil _ _),
    C8_amended.2 [sampleRecord]⟩

/-! ## Budget-packing lemmas -/

/-- Total estimated tokens of a chunk list. -/
def tokensOf (l : List RetrievedChunk) : Nat :=
  (l.map (fun c => estimateTokens c.text)).sum

/-- The greedy packing never exceeds the budget (relative to the running
total), unless it selects nothing at all. -/
theorem packGreedy_sum (maxTokens : Nat) :
    ∀ (l : List RetrievedChunk) (total : Nat),
      tokensOf (packGreedy maxTokens l total) + total ≤ maxTokens ∨
      packGreedy maxTokens l total = [] := by
  intro l
  induction l with
  | nil => intro total; right; rfl
  | cons c rest ih =>
    intro total
    by_cases hfit : total + estimateTokens c.text ≤ maxTokens
    · left
      simp only [packGreedy, if_pos hfit]
      rcases ih (total + estimateTokens c.text) with h | h
      · simp only [tokensOf, List.map_cons, List.sum_cons]
        simp only [tokensOf] at h
        omega
      · rw [h]
        simp only [tokensOf, List.map_cons, List.map_nil, List.sum_cons, List.sum_nil]
        omega
    · right
      simp only [packGreedy, if_neg hfit]

/-- The greedy packing is a prefix of its input. -/
theorem packGreedy_append (maxTokens : Nat) :
    ∀ (l : List RetrievedChunk) (total : Nat),
      ∃ rest, l = packGreedy maxTokens l total ++ rest := by
  intro l
  induction l with
  | nil => intro total; exact ⟨[], rfl⟩
  | cons c rest ih =>
    intro total
    by_cases hfit : total + estimateTokens c.text ≤ maxTokens
    · rcases ih (total + estimateTokens c.text) with ⟨tail, htail⟩
      refine ⟨tail, ?_⟩
      simp only [packGreedy, if_pos hfit, List.cons_append]
      exact congrArg (c :: ·) htail
    · exact ⟨c :: rest, by simp [packGreedy, if_neg hfit]⟩

/-- When a chunk immediately follows the greedy selection, adding it would
have exceeded the budget. -/
theorem packGreedy_stop (maxTokens : Nat) :
    ∀ (l : List RetrievedChunk) (total : Nat) (c : RetrievedChunk)
      (rest : List RetrievedChunk),
      l = packGreedy maxTokens l total ++ c :: rest →
      maxTokens < total + tokensOf (packGreedy maxTokens l total) + estimateTokens c.text := by
  intro l
  induction l with
  | nil =>
    intro total c rest h
    simp only [packGreedy] at h
    exact absurd h (by simp)
  | cons d l2 ih =>
    intro total c rest h
    by_cases hfit : total + estimateTokens d.text ≤ maxTokens
    · simp only [packGreedy, if_pos hfit, List.cons_append, List.cons.injEq] at h
      have h2 := ih (total + estimateTokens d.text) c rest h.2
      simp only [packGreedy, if_pos hfit]
      simp only [tokensOf, List.map_cons, List.sum_cons]
      simp only [tokensOf] at h2
      omega
    · simp only [packGreedy, if_neg hfit, List.nil_append, List.cons.injEq] at h
      simp only [packGreedy, if_neg hfit]
      simp only [tokensOf, List.map_nil, List.sum_nil]
      have : c = d := h.1.symm
      subst this
      omega

/-- C5: the chunks selected by filterAndRankChunks always fit the token
budget (each chunk costing ceil(length / 4) tokens); the selection is
exactly the greedy walk over the score-descending sort of the filtered
chunks, and it stops at the first chunk that would exceed the budget. -/
theorem C5_budget_packing (minScore : ℝ) (chunks : List RetrievedChunk) (maxTokens : Nat) :
    tokensOf (filterAndRankChunks minScore chunks maxTokens) ≤ maxTokens ∧
    filterAndRankChunks minScore chunks maxTokens =
      packGreedy maxTokens
        (List.insertionSort (fun a b => b.score ≤ a.score)
          (chunks.filter (fun c => decide (minScore ≤ c.score)))) 0 ∧
    ∀ (c : RetrievedChunk) (rest : List RetrievedChunk),
      List.insertionSort (fun a b => b.score ≤ a.score)
          (chunks.filter (fun c => decide (minScore ≤ c.score))) =
        filterAndRankChunks minScore chunks maxTokens ++ c :: rest →
      maxTokens < tokensOf (filterAndRankChunks minScore chunks maxTokens) +
        estimateTokens c.text := by
  have heq : filterAndRankChunks minScore chunks maxTokens =
      packGreedy maxTokens
        (List.insertionSort (fun a b => b.score ≤ a.score)
          (chunks.filter (fun c => decide (minScore ≤ c.score)))) 0 := by
    by_cases hempty : (chunks.filter (fun c => decide (minScore ≤ c.score))).length = 0
    · have hnil : chunks.filter (fun c => decide (minScore ≤ c.score)) = [] :=
        List.length_eq_zero.mp hempty
      simp [filterAndRankChunks, hempty, hnil, packGreedy]
    · simp [filterAndRankChunks, hempty]
  refine ⟨?_, heq, ?_⟩
  · rw [heq]
    rcases packGreedy_sum maxTokens
      (List.insertionSort (fun a b => b.score ≤ a.score)
        (chunks.filter (fun c => decide (minScore ≤ c.score)))) 0 with h | h
    · omega
    · rw [h]; simp [tokensOf]
  · intro c rest hsplit
    rw [heq] at hsplit ⊢
    have := packGreedy_stop maxTokens
      (List.insertionSort (fun a b => b.score ≤ a.score)
        (chunks.filter (fun c => decide (minScore ≤ c.score)))) 0 c rest hsplit
    omega

/-- Witness for C5 at a concrete chunk whose single token exceeds a zero
budget: the packed set is empty and the stop condition fires on that
chunk. -/
theorem C5_witness :
    filterAndRankChunks 0 [bigChunk] 0 = [] ∧
    0 < tokensOf (filterAndRankChunks 0 [bigChunk] 0) + estimateTokens bigChunk.text := by
  have heval : List.insertionSort (fun a b : RetrievedChunk => b.score ≤ a.score)
      ([bigChunk].filter (fun c => decide ((0:ℝ) ≤ c.score))) = [bigChunk] := by
    norm_num [bigChunk, List.insertionSort, List.orderedInsert]
  have hfr : filterAndRankChunks 0 [bigChunk] 0 = [] := by
    rw [(C5_budget_packing 0 [bigChunk] 0).2.1, heval]
    have h4 : estimateTokens bigChunk.text = 1 := rfl
    simp [packGreedy, h4]
  refine ⟨hfr, ?_⟩
  exact Nat.lt_of_lt_of_le
    ((C5_budget_packing 0 [bigChunk] 0).2.2 bigChunk [] (by rw [heval, hfr]; rfl))
    (le_refl _)

/-! ## addDocuments and dimension-mismatch lemmas -/

/-- The indexed push loop of addDocuments is a three-way zip when the
batch arrays have equal lengths. -/
theorem rangeMap_zip :
    ∀ (docs : List String) (embs : List (List ℝ)) (metas : List ChunkMetadata),
      docs.length = embs.length → docs.length = metas.length →
      (List.range docs.length).map (fun i =>
        VectorRecord.mk (docs.getD i "") (embs.getD i []) (metas.getD i ⟨none, none, none⟩)) =
      List.zipWith3 VectorRecord.mk docs embs metas := by
  intro docs
  induction docs with
  | nil =>
    intro embs metas _ _
    simp [List.zipWith3]
  | cons d ds ih =>
    intro embs metas hemb hmeta
    cases embs with
    | nil => simp at hemb
    | cons e es =>
      cases metas with
      | nil => simp at hmeta
      | cons m ms =>
        simp only [List.length_cons, List.range_succ_eq_map, List.map_cons, List.getD_cons_zero,
          List.map_map, List.zipWith3]
        refine congrArg (VectorRecord.mk d e m :: ·) ?_
        have := ih es ms (by simpa using hemb) (by simpa using hmeta)
        rw [← this]
        apply List.map_congr_left
        intro i _
        simp [List.getD_cons_succ]

/-- Membership in a list lifts to its numbered enumeration. -/
theorem mem_enumFrom_of_mem {α : Type} :
    ∀ (l : List α) (n : Nat) (a : α), a ∈ l → ∃ i, (i, a) ∈ l.enumFrom n := by
  intro l
  induction l with
  | nil => intro n a ha; simp at ha
  | cons x xs ih =>
    intro n a ha
    rcases List.mem_cons.mp ha with h | h
    · exact ⟨n, by simp [List.enumFrom, h]⟩
    · rcases ih (n + 1) a h with ⟨i, hi⟩
      exact ⟨i, by simp [List.enumFrom, List.mem_cons]; right; exact hi⟩

/-- Membership in a list lifts to its enumeration. -/
theorem mem_enum_of_mem {α : Type} (l : List α) (a : α) (h : a ∈ l) :
    ∃ i, (i, a) ∈ l.enum :=
  mem_enumFrom_of_mem l 0 a h

/-- A throw inside the mapped function escapes mapOrThrow. -/
theorem mapOrThrow_error {α β : Type} (f : α → Except String β) :
    ∀ (l : List α) (x : α), x ∈ l → (∃ e, f x = Except.error e) →
      ∃ e, mapOrThrow f l = Except.error e := by
  intro l
  induction l with
  | nil => intro x hx _; simp at hx
  | cons y rest ih =>
    intro x hx hfx
    rcases List.mem_cons.mp hx with h | h
    · subst h
      rcases hfx with ⟨e, he⟩
      exact ⟨e, by simp [mapOrThrow, he]⟩
    · cases hy : f y with
      | error e => exact ⟨e, by simp [mapOrThrow, hy]⟩
      | ok v =>
        rcases ih x h hfx with ⟨e, he⟩
        exact ⟨e, by simp [mapOrThrow, hy, he]⟩

/-- C10: addDocuments performs no validation: for every batch with one
embedding and metadata per document it appends exactly one record per
document, in order, whatever the embedding dimensions are; and a store
containing a record whose embedding length differs from the query's makes
queryVectorStore throw (the mismatch is only detected when
cosineSimilarity reaches that record). -/
theorem C10_no_dimension_validation :
    (∀ (store : List VectorRecord) (docs : List String) (embs : List (List ℝ))
      (metas : List ChunkMetadata),
      docs.length = embs.length → docs.length = metas.length →
      addDocuments store docs embs metas = store ++ List.zipWith3 VectorRecord.mk docs embs metas) ∧
    (∀ (store : List VectorRecord) (q : List ℝ) (k : Nat),
      (∃ r ∈ store, ¬ (r.embedding.length = q.length)) →
      ∃ e, queryVectorStore store q k = Except.error e) := by
  constructor
  · intro store docs embs metas h1 h2
    unfold addDocuments
    rw [rangeMap_zip docs embs metas h1 h2]
  · intro store q k hbad
    rcases hbad with ⟨r, hr, hlen⟩
    have hne : store.length ≠ 0 := by
      intro h0
      rw [List.length_eq_zero.mp h0] at hr
      simp at hr
    rcases mem_enum_of_mem store r hr with ⟨i, hi⟩
    have herr : ∃ e, (fun p : Nat × VectorRecord =>
        match cosineSimilarity q p.2.embedding with
        | Except.error e => Except.error e
        | Except.ok sim => Except.ok (SimEntry.mk p.1 sim p.2.content p.2.metadata))
          (i, r) = Except.error e := by
      refine ⟨"Vectors must have the same length", ?_⟩
      have : ¬ (q.length = r.embedding.length) := fun h => hlen h.symm
      simp [cosineSimilarity, this]
    rcases mapOrThrow_error (fun p : Nat × VectorRecord =>
        match cosineSimilarity q p.2.embedding with
        | Except.error e => Except.error e
        | Except.ok sim => Except.ok (SimEntry.mk p.1 sim p.2.content p.2.metadata))
      store.enum (i, r) hi herr with ⟨e, he⟩
    refine ⟨e, ?_⟩
    simp only [queryVectorStore, if_neg hne, he]

/-- Witness for C10 at a concrete two-document batch with mixed embedding
dimensions, then a query that reaches the mismatched record. -/
theorem C10_witness :
    addDocuments [] ["a", "b"] [[1], [1, 0]] [metaA, metaB] =
      [] ++ List.zipWith3 VectorRecord.mk ["a", "b"] [[1], [1, 0]] [metaA, metaB] ∧
    ∃ e, queryVectorStore mixedStore [1] 5 = Except.error e :=
  ⟨C10_no_dimension_validation.1 [] ["a", "b"] [[1], [1, 0]] [metaA, metaB] rfl rfl,
    C10_no_dimension_validation.2 mixedStore [1] 5
      ⟨⟨"b", [1, 0], metaB⟩, List.mem_cons_of_mem _ (List.mem_cons_self _ _), by simp⟩⟩

/-! ## queryVectorStore correctness lemmas -/

/-- The mapped function of mapOrThrow never throwing yields the plain map. -/
theorem mapOrThrow_ok {α β : Type} (f : α → Except String β) (g : α → β) :
    ∀ (l : List α), (∀ x ∈ l, f x = Except.ok (g x)) →
      mapOrThrow f l = Except.ok (l.map g) := by
  intro l
  induction l with
  | nil => intro _; rfl
  | cons x rest ih =>
    intro hall
    have hx := hall x (List.mem_cons_self _ _)
    have hrest := ih (fun y hy => hall y (List.mem_cons_of_mem _ hy))
    simp [mapOrThrow, hx, hrest]

/-- The element of an enumeration entry belongs to the original list. -/
theorem snd_mem_of_mem_enumFrom {α : Type} :
    ∀ (l : List α) (n i : Nat) (a : α), (i, a) ∈ l.enumFrom n → a ∈ l := by
  intro l
  induction l with
  | nil => intro n i a h; simp [List.enumFrom] at h
  | cons x xs ih =>
    intro n i a h
    simp only [List.enumFrom, List.mem_cons, Prod.mk.injEq] at h
    rcases h with ⟨_, h2⟩ | h
    · exact List.mem_cons.mpr (Or.inl h2)
    · exact List.mem_cons.mpr (Or.inr (ih (n + 1) i a h))

/-- C4: for every store whose record embeddings match the query dimension
and every topK, queryVectorStore returns (without throwing) three parallel
arrays of exactly min(topK, N) results, scores sorted non-increasingly;
the empty store yields empty arrays. -/
theorem C4_query_topk (store : List VectorRecord) (q : List ℝ) (k : Nat)
    (h : ∀ r ∈ store, r.embedding.length = q.length) :
    ∃ res, queryVectorStore store q k = Except.ok res ∧
      res.documents.length = min k store.length ∧
      res.scores.length = min k store.length ∧
      res.metadatas.length = min k store.length ∧
      List.Sorted (fun x y : ℝ => y ≤ x) res.scores ∧
      (store = [] → res = ⟨[], [], []⟩) := by
  by_cases hs : store.length = 0
  · refine ⟨⟨[], [], []⟩, ?_, ?_, ?_, ?_, ?_, fun _ => rfl⟩
    · simp [queryVectorStore, hs]
    · simp [hs]
    · simp [hs]
    · simp [hs]
    · simp
  · have hmap : mapOrThrow (fun p : Nat × VectorRecord =>
        match cosineSimilarity q p.2.embedding with
        | Except.error e => Except.error e
        | Except.ok sim => Except.ok (SimEntry.mk p.1 sim p.2.content p.2.metadata))
        store.enum = Except.ok (store.enum.map (fun p =>
          SimEntry.mk p.1 (cosineValue q p.2.embedding) p.2.content p.2.metadata)) := by
      apply mapOrThrow_ok
      intro p hp
      have hmem : p.2 ∈ store := snd_mem_of_mem_enumFrom store 0 p.1 p.2 (by
        rcases p with ⟨i, r⟩
        exact hp)
      have hlen : q.length = p.2.embedding.length := (h p.2 hmem).symm
      simp [cosineSimilarity, hlen]
    have hperm := List.perm_insertionSort (fun a b : SimEntry => b.similarity ≤ a.similarity)
      (store.enum.map (fun p =>
        SimEntry.mk p.1 (cosineValue q p.2.embedding) p.2.content p.2.metadata))
    have hlenL : (List.insertionSort (fun a b : SimEntry => b.similarity ≤ a.similarity)
        (store.enum.map (fun p =>
          SimEntry.mk p.1 (cosineValue q p.2.embedding) p.2.content p.2.metadata))).length =
        store.length := by
      rw [hperm.length_eq, List.length_map, List.enum_length]
    have hsorted := List.sorted_insertionSort
      (fun a b : SimEntry => b.similarity ≤ a.similarity)
      (store.enum.map (fun p =>
        SimEntry.mk p.1 (cosineValue q p.2.embedding) p.2.content p.2.metadata))
    have hq : queryVectorStore store q k = Except.ok
        ⟨((List.insertionSort (fun a b : SimEntry => b.similarity ≤ a.similarity)
            (store.enum.map (fun p =>
              SimEntry.mk p.1 (cosineValue q p.2.embedding) p.2.content p.2.metadata))).take
            k).map (fun r => r.content),
          ((List.insertionSort (fun a b : SimEntry => b.similarity ≤ a.similarity)
            (store.enum.map (fun p =>
              SimEntry.mk p.1 (cosineValue q p.2.embedding) p.2.content p.2.metadata))).take
            k).map (fun r => r.similarity),
          ((List.insertionSort (fun a b : SimEntry => b.similarity ≤ a.similarity)
            (store.enum.map (fun p =>
              SimEntry.mk p.1 (cosineValue q p.2.embedding) p.2.content p.2.metadata))).take
            k).map (fun r => r.metadata)⟩ := by
      simp only [queryVectorStore, if_neg hs, hmap]
    refine ⟨_, hq, ?_, ?_, ?_, ?_, ?_⟩
    · simp only [List.length_map, List.length_take, hlenL]
    · simp only [List.length_map, List.length_take, hlenL]
    · simp only [List.length_map, List.length_take, hlenL]
    · have h1 : List.Pairwise (fun a b : SimEntry => b.similarity ≤ a.similarity)
          ((List.insertionSort (fun a b : SimEntry => b.similarity ≤ a.similarity)
            (store.enum.map (fun p =>
              SimEntry.mk p.1 (cosineValue q p.2.embedding) p.2.content p.2.metadata))).take
            k) :=
        List.Pairwise.sublist (List.take_sublist _ _) hsorted
      exact List.Pairwise.map (fun r : SimEntry => r.similarity) (fun a b hab => hab) h1
    · intro hempty
      exact absurd (by rw [hempty]; rfl) hs

/-- Witness for C4 at the empty store and at a one-record store with a
matching one-dimensional query. -/
theorem C4_witness :
    (∃ res, queryVectorStore [] [(1 : ℝ)] 5 = Except.ok res ∧
      res.documents.length = min 5 ([] : List VectorRecord).length ∧
      res.scores.length = min 5 ([] : List VectorRecord).length ∧
      res.metadatas.length = min 5 ([] : List VectorRecord).length ∧
      List.Sorted (fun x y : ℝ => y ≤ x) res.scores ∧
      (([] : List VectorRecord) = [] → res = ⟨[], [], []⟩)) ∧
    (∃ res, queryVectorStore [sampleRecord] [(1 : ℝ)] 5 = Except.ok res ∧
      res.documents.length = min 5 [sampleRecord].length ∧
      res.scores.length = min 5 [sampleRecord].length ∧
      res.metadatas.length = min 5 [sampleRecord].length ∧
      List.Sorted (fun x y : ℝ => y ≤ x) res.scores ∧
      ([sampleRecord] = [] → res = ⟨[], [], []⟩)) :=
  ⟨C4_query_topk [] [1] 5 (by intro r hr; simp at hr),
    C4_query_topk [sampleRecord] [1] 5 (by
      intro r hr
      rw [List.mem_singleton.mp hr]
      rfl)⟩

/-! ## Cosine-similarity lemmas -/

/-- The accumulated dot product is symmetric. -/
theorem dotp_comm : ∀ (a b : List ℝ), dotp a b = dotp b a := by
  intro a
  induction a with
  | nil => intro b; cases b <;> simp [dotp]
  | cons x xs ih =>
    intro b
    cases b with
    | nil => simp [dotp]
    | cons y ys =>
      simp only [dotp, List.zipWith_cons_cons, List.sum_cons]
      have := ih ys
      simp only [dotp] at this
      rw [this, mul_comm]

/-- The self dot product is nonnegative. -/
theorem dotp_self_nonneg : ∀ (a : List ℝ), 0 ≤ dotp a a := by
  intro a
  induction a with
  | nil => simp [dotp]
  | cons x xs ih =>
    simp only [dotp, List.zipWith_cons_cons, List.sum_cons]
    have hx : 0 ≤ x * x := mul_self_nonneg x
    simp only [dotp] at ih
    linarith

/-- The self dot product of a vector with a nonzero entry is positive. -/
theorem dotp_self_pos : ∀ (a : List ℝ), (∃ x ∈ a, ¬ (x = 0)) → 0 < dotp a a := by
  intro a
  induction a with
  | nil => intro h; simp at h
  | cons y ys ih =>
    intro h
    simp only [dotp, List.zipWith_cons_cons, List.sum_cons]
    rcases h with ⟨x, hx, hxne⟩
    rcases List.mem_cons.mp hx with h1 | h1
    · have hy : 0 < y * y := by
        have : ¬ (y = 0) := by rw [← h1]; exact hxne
        exact mul_self_pos.mpr this
      have := dotp_self_nonneg ys
      simp only [dotp] at this
      linarith
    · have hpos := ih ⟨x, h1, hxne⟩
      simp only [dotp] at hpos
      have hy : 0 ≤ y * y := mul_self_nonneg y
      linarith

/-- The Cauchy-Schwarz step for one coordinate. -/
theorem cs_step (x y a b c : ℝ) (h : b ^ 2 ≤ a * c) (ha : 0 ≤ a) (hc : 0 ≤ c) :
    (x * y + b) ^ 2 ≤ (x ^ 2 + a) * (y ^ 2 + c) := by
  rcases eq_or_lt_of_le hc with hc0 | hcpos
  · have hb : b = 0 := by nlinarith [sq_nonneg b]
    subst hb
    have hcz : c = 0 := hc0.symm
    subst hcz
    nlinarith [mul_nonneg ha (sq_nonneg y), sq_nonneg (x * y)]
  · nlinarith [sq_nonneg (x * c - y * b), mul_nonneg (sq_nonneg y) (sub_nonneg.2 h),
      mul_nonneg hc (sub_nonneg.2 h)]

/-- Cauchy-Schwarz for the accumulated dot products. -/
theorem dotp_cauchy : ∀ (a b : List ℝ), (dotp a b) ^ 2 ≤ dotp a a * dotp b b := by
  intro a
  induction a with
  | nil =>
    intro b
    simp [dotp]
  | cons x xs ih =>
    intro b
    cases b with
    | nil => simp [dotp]
    | cons y ys =>
      simp only [dotp, List.zipWith_cons_cons, List.sum_cons]
      have hstep := cs_step x y (dotp xs xs) (dotp xs ys) (dotp ys ys)
        (ih ys) (dotp_self_nonneg xs) (dotp_self_nonneg ys)
      simp only [dotp] at hstep
      nlinarith [hstep]

/-- The cosine value always lies in [-1, 1] (with the convention that a
zero denominator yields 0). -/
theorem cosineValue_bounds (a b : List ℝ) : -1 ≤ cosineValue a b ∧ cosineValue a b ≤ 1 := by
  have hA := dotp_self_nonneg a
  have hcs := dotp_cauchy a b
  have habs : |dotp a b| ≤ Real.sqrt (dotp a a) * Real.sqrt (dotp b b) := by
    rw [← Real.sqrt_mul hA]
    calc |dotp a b| = Real.sqrt ((dotp a b) ^ 2) := (Real.sqrt_sq_eq_abs _).symm
      _ ≤ Real.sqrt (dotp a a * dotp b b) := Real.sqrt_le_sqrt hcs
  have hdenom : 0 ≤ Real.sqrt (dotp a a) * Real.sqrt (dotp b b) :=
    mul_nonneg (Real.sqrt_nonneg _) (Real.sqrt_nonneg _)
  rcases eq_or_lt_of_le hdenom with h0 | hpos
  · rw [cosineValue, ← h0, div_zero]
    norm_num
  · have h1 : |cosineValue a b| ≤ 1 := by
      rw [cosineValue, abs_div, abs_of_pos hpos]
      exact div_le_one_of_le habs (le_of_lt hpos)
    exact abs_le.mp h1

/-- The cosine value of a vector with itself is 1 when some entry is
nonzero. -/
theorem cosineValue_self (a : List ℝ) (h : ∃ x ∈ a, ¬ (x = 0)) : cosineValue a a = 1 := by
  have hpos := dotp_self_pos a h
  rw [cosineValue, Real.mul_self_sqrt (le_of_lt hpos), div_self (ne_of_gt hpos)]

/-- C6: over real arithmetic (the idealization of the JavaScript floats),
cosineSimilarity is symmetric on equal-length vectors, every returned
value lies in [-1, 1], and a non-zero vector has self-similarity exactly
1. -/
theorem C6_cosine_properties (a b : List ℝ) (hlen : a.length = b.length) :
    cosineSimilarity a b = cosineSimilarity b a ∧
    (∀ v, cosineSimilarity a b = Except.ok v → -1 ≤ v ∧ v ≤ 1) ∧
    ((∃ x ∈ a, ¬ (x = 0)) → cosineSimilarity a a = Except.ok 1) := by
  refine ⟨?_, ?_, ?_⟩
  · rw [cosineSimilarity, cosineSimilarity, if_pos hlen, if_pos hlen.symm]
    have : cosineValue a b = cosineValue b a := by
      rw [cosineValue, cosineValue, dotp_comm a b, mul_comm]
    rw [this]
  · intro v hv
    rw [cosineSimilarity, if_pos hlen] at hv
    have hveq : cosineValue a b = v := Except.ok.inj hv
    rw [← hveq]
    exact cosineValue_bounds a b
  · intro hnz
    rw [cosineSimilarity, if_pos rfl, cosineValue_self a hnz]

/-- Witness for C6 at the one-dimensional unit vector. -/
theorem C6_witness :
    (cosineSimilarity [(1 : ℝ)] [1] = cosineSimilarity [1] [(1 : ℝ)] ∧
      (∀ v, cosineSimilarity [(1 : ℝ)] [1] = Except.ok v → -1 ≤ v ∧ v ≤ 1) ∧
      ((∃ x ∈ [(1 : ℝ)], ¬ (x = 0)) → cosineSimilarity [(1 : ℝ)] [(1 : ℝ)] = Except.ok 1)) ∧
    cosineSimilarity [(1 : ℝ)] [(1 : ℝ)] = Except.ok 1 :=
  ⟨C6_cosine_properties [1] [1] rfl,
    (C6_cosine_properties [1] [1] rfl).2.2 ⟨1, List.mem_singleton_self 1, one_ne_zero⟩⟩

/-! ## Retrieval-empty paths of answerQuestion -/

/-- C9: answerQuestion returns the standard no-information answer, with no
sources, zero contexts and a zero token estimate, both on an empty store
and whenever no retrieved chunk passes the minimum-score filter; neither
path throws. -/
theorem C9_retrieval_empty :
    (∀ (cfg : RAGConfig) (embed : String → List ℝ) (llm : LLMFun)
      (fmtScore : ℝ → String) (question : String) (hist : List ConversationMessage),
      answerQuestion cfg [] embed llm fmtScore question hist =
        Except.ok ⟨noInfoMessage, [], 0, 0⟩) ∧
    (∀ (cfg : RAGConfig) (store : List VectorRecord) (embed : String → List ℝ)
      (llm : LLMFun) (fmtScore : ℝ → String) (question : String)
      (hist : List ConversationMessage) (res : QueryResult),
      queryVectorStore store (embed question) cfg.topK = Except.ok res →
      (∀ c ∈ chunksOfResult res, c.score < cfg.minScore) →
      answerQuestion cfg store embed llm fmtScore question hist =
        Except.ok ⟨noInfoMessage, [], 0, 0⟩) := by
  constructor
  · intro cfg embed llm fmtScore question hist
    simp [answerQuestion, queryVectorStore]
  · intro cfg store embed llm fmtScore question hist res hq hball
    have hfilter : (chunksOfResult res).filter (fun c => decide (cfg.minScore ≤ c.score)) = [] :=
      List.filter_eq_nil.mpr (fun c hc => by
        simp only [decide_eq_true_eq]
        exact not_le.mpr (hball c hc))
    have hsel : filterAndRankChunks cfg.minScore (chunksOfResult res) cfg.maxContextTokens = [] := by
      simp [filterAndRankChunks, hfilter]
    by_cases hdoc : res.documents.length = 0
    · simp [answerQuestion, hq, hdoc]
    · simp [answerQuestion, hq, hdoc, hsel]

/-- The cosine value of orthogonal two-dimensional vectors is 0. -/
theorem cv_orth : cosineValue [(0 : ℝ), 1] [1, 0] = 0 := by
  simp [cosineValue, dotp]

/-- Evaluation of the one-record orthogonal query. -/
theorem qv_w : queryVectorStore wStore [(0 : ℝ), 1] 5 = Except.ok ⟨["A"], [0], [metaA]⟩ := by
  have h1 : cosineSimilarity [(0 : ℝ), 1] [1, 0] = Except.ok 0 := by
    simp [cosineSimilarity, cv_orth]
  simp [queryVectorStore, wStore, mapOrThrow, h1, List.enum, List.enumFrom,
    List.insertionSort, List.orderedInsert]

/-- Witness for C9: the empty store, and a one-record store whose only
retrieval score 0 is below the default minimum 3/10. -/
theorem C9_witness :
    answerQuestion defaultRAGConfig [] wEmbed wLLM cexFmt "Q" [] =
      Except.ok ⟨noInfoMessage, [], 0, 0⟩ ∧
    answerQuestion defaultRAGConfig wStore wEmbed wLLM cexFmt "Q" [] =
      Except.ok ⟨noInfoMessage, [], 0, 0⟩ := by
  constructor
  · exact C9_retrieval_empty.1 defaultRAGConfig wEmbed wLLM cexFmt "Q" []
  · refine C9_retrieval_empty.2 defaultRAGConfig wStore wEmbed wLLM cexFmt "Q" []
      ⟨["A"], [0], [metaA]⟩ ?_ ?_
    · have : wEmbed "Q" = [(0 : ℝ), 1] := rfl
      rw [this]
      have htop : defaultRAGConfig.topK = 5 := rfl
      rw [htop]
      exact qv_w
    · intro c hc
      have hchunks : chunksOfResult ⟨["A"], [0], [metaA]⟩ = [⟨"A", (0 : ℝ), metaA⟩] := rfl
      rw [hchunks] at hc
      rw [List.mem_singleton.mp hc]
      have h310 : defaultRAGConfig.minScore = 3 / 10 := rfl
      rw [h310]
      norm_num

/-! ## Source-map (association list) lemmas -/

/-- A member entry's key is among the map keys. -/
theorem key_mem_of_mem {m : List (String × Nat × ℝ)} {k : String} {v : Nat × ℝ}
    (h : (k, v) ∈ m) : k ∈ mapKeys m :=
  List.mem_map.mpr ⟨(k, v), h, rfl⟩

/-- lookupEntry misses exactly the absent keys. -/
theorem lookupEntry_none_iff :
    ∀ (m : List (String × Nat × ℝ)) (k : String),
      lookupEntry k m = none ↔ ¬ k ∈ mapKeys m := by
  intro m
  induction m with
  | nil => intro k; simp [lookupEntry, mapKeys]
  | cons e rest ih =>
    intro k
    rcases e with ⟨k1, v1⟩
    by_cases hk : k1 = k
    · subst hk
      simp [lookupEntry, mapKeys]
    · simp only [lookupEntry, if_neg hk, mapKeys, List.map_cons, List.mem_cons]
      rw [ih k]
      simp only [mapKeys]
      constructor
      · intro h hor
        rcases hor with h1 | h1
        · exact hk h1.symm
        · exact h h1
      · intro h h1
        exact h (Or.inr h1)

/-- A successful lookup returns a member entry. -/
theorem lookupEntry_some_mem :
    ∀ (m : List (String × Nat × ℝ)) (k : String) (v : Nat × ℝ),
      lookupEntry k m = some v → (k, v) ∈ m := by
  intro m
  induction m with
  | nil => intro k v h; simp [lookupEntry] at h
  | cons e rest ih =>
    intro k v h
    rcases e with ⟨k1, v1⟩
    by_cases hk : k1 = k
    · subst hk
      simp only [lookupEntry, eq_self_iff_true, if_true, Option.some.injEq] at h
      rw [← h]
      exact List.mem_cons_self _ _
    · simp only [lookupEntry, if_neg hk] at h
      exact List.mem_cons_of_mem _ (ih k v h)

/-- Setting an absent key appends the new entry. -/
theorem setEntry_of_not_mem :
    ∀ (m : List (String × Nat × ℝ)) (k : String) (v : Nat × ℝ),
      ¬ k ∈ mapKeys m → setEntry k v m = m ++ [(k, v)] := by
  intro m
  induction m with
  | nil => intro k v _; rfl
  | cons e rest ih =>
    intro k v h
    rcases e with ⟨k1, v1⟩
    simp only [mapKeys, List.map_cons, List.mem_cons] at h
    push_neg at h
    simp only [setEntry, if_neg (fun hh : k1 = k => h.1 hh.symm), List.cons_append]
    rw [ih k v (by simpa [mapKeys] using h.2)]

/-- Setting a present key keeps the key list unchanged. -/
theorem mapKeys_setEntry_of_mem :
    ∀ (m : List (String × Nat × ℝ)) (k : String) (v : Nat × ℝ),
      k ∈ mapKeys m → mapKeys (setEntry k v m) = mapKeys m := by
  intro m
  induction m with
  | nil => intro k v h; simp [mapKeys] at h
  | cons e rest ih =>
    intro k v h
    rcases e with ⟨k1, v1⟩
    by_cases hk : k1 = k
    · subst hk
      simp [setEntry, mapKeys]
    · simp only [mapKeys, List.map_cons, List.mem_cons] at h
      rcases h with h1 | h1
      · exact absurd h1.symm hk
      · simp only [setEntry, if_neg hk, mapKeys, List.map_cons]
        rw [show (List.map (fun e => e.1) (setEntry k v rest)) = mapKeys (setEntry k v rest) from rfl,
          ih k v h1]
        rfl

/-- Entries with another key are untouched by setEntry. -/
theorem setEntry_mem_ne :
    ∀ (m : List (String × Nat × ℝ)) (k k1 : String) (v v1 : Nat × ℝ),
      ¬ (k1 = k) → ((k1, v1) ∈ setEntry k v m ↔ (k1, v1) ∈ m) := by
  intro m
  induction m with
  | nil =>
    intro k k1 v v1 hne
    simp only [setEntry, List.mem_singleton, List.not_mem_nil, iff_false, Prod.mk.injEq]
    intro h
    exact hne h.1
  | cons e rest ih =>
    intro k k1 v v1 hne
    rcases e with ⟨k2, v2⟩
    by_cases hk : k2 = k
    · subst hk
      have hset : setEntry k2 v ((k2, v2) :: rest) = (k2, v) :: rest := by
        simp [setEntry]
      rw [hset]
      simp only [List.mem_cons, Prod.mk.injEq]
      constructor
      · rintro (⟨ha, _⟩ | hb)
        · exact absurd ha hne
        · exact Or.inr hb
      · rintro (⟨ha, _⟩ | hb)
        · exact absurd ha hne
        · exact Or.inr hb
    · simp only [setEntry, if_neg hk, List.mem_cons]
      rw [ih k k1 v v1 hne]

/-- The entry just set is a member. -/
theorem setEntry_self_mem :
    ∀ (m : List (String × Nat × ℝ)) (k : String) (v : Nat × ℝ),
      (k, v) ∈ setEntry k v m := by
  intro m
  induction m with
  | nil => intro k v; exact List.mem_singleton_self _
  | cons e rest ih =>
    intro k v
    rcases e with ⟨k1, v1⟩
    by_cases hk : k1 = k
    · subst hk
      simp [setEntry]
    · simp only [setEntry, if_neg hk, List.mem_cons]
      exact Or.inr (ih k v)

/-- With nodup keys an entry is determined by its key. -/
theorem nodup_unique :
    ∀ (m : List (String × Nat × ℝ)) (k : String) (v1 v2 : Nat × ℝ),
      (mapKeys m).Nodup → (k, v1) ∈ m → (k, v2) ∈ m → v1 = v2 := by
  intro m
  induction m with
  | nil => intro k v1 v2 _ h1 _; simp at h1
  | cons e rest ih =>
    intro k v1 v2 hnd h1 h2
    rcases e with ⟨k1, w⟩
    have hnd2 : (mapKeys rest).Nodup ∧ ¬ k1 ∈ mapKeys rest := by
      simp only [mapKeys, List.map_cons, List.nodup_cons] at hnd
      exact ⟨hnd.2, hnd.1⟩
    rcases List.mem_cons.mp h1 with ha | ha
    · rcases List.mem_cons.mp h2 with hb | hb
      · have e1 := (Prod.mk.injEq _ _ _ _).mp ha
        have e2 := (Prod.mk.injEq _ _ _ _).mp hb
        rw [e1.2, e2.2]
      · have e1 := (Prod.mk.injEq _ _ _ _).mp ha
        have : k ∈ mapKeys rest := key_mem_of_mem hb
        rw [← e1.1] at hnd2
        exact absurd this hnd2.2
    · rcases List.mem_cons.mp h2 with hb | hb
      · have e2 := (Prod.mk.injEq _ _ _ _).mp hb
        have : k ∈ mapKeys rest := key_mem_of_mem ha
        rw [← e2.1] at hnd2
        exact absurd this hnd2.2
      · exact ih k v1 v2 hnd2.1 ha hb

/-- With nodup keys, membership at the set key is exactly the new value. -/
theorem setEntry_mem_self_iff
    (m : List (String × Nat × ℝ)) (k : String) (v v1 : Nat × ℝ)
    (hnd : (mapKeys m).Nodup) : (k, v1) ∈ setEntry k v m ↔ v1 = v := by
  constructor
  · intro h
    by_cases hk : k ∈ mapKeys m
    · have hnd2 : (mapKeys (setEntry k v m)).Nodup := by
        rw [mapKeys_setEntry_of_mem m k v hk]; exact hnd
      exact nodup_unique (setEntry k v m) k v1 v hnd2 h (setEntry_self_mem m k v)
    · rw [setEntry_of_not_mem m k v hk] at h
      rcases List.mem_append.mp h with h1 | h1
      · exact absurd (key_mem_of_mem h1) hk
      · have := List.mem_singleton.mp h1
        exact ((Prod.mk.injEq _ _ _ _).mp this).2
  · intro h
    rw [h]
    exact setEntry_self_mem m k v

/-- setEntry preserves nodup keys. -/
theorem mapKeys_setEntry_nodup
    (m : List (String × Nat × ℝ)) (k : String) (v : Nat × ℝ)
    (hnd : (mapKeys m).Nodup) : (mapKeys (setEntry k v m)).Nodup := by
  by_cases hk : k ∈ mapKeys m
  · rw [mapKeys_setEntry_of_mem m k v hk]; exact hnd
  · rw [setEntry_of_not_mem m k v hk]
    simp only [mapKeys, List.map_append, List.map_cons, List.map_nil]
    rw [List.nodup_append]
    refine ⟨hnd, List.nodup_singleton _, ?_⟩
    intro a ha hb
    simp only [List.mem_singleton] at hb
    subst hb
    exact hk ha

/-- Unfolding sourceMapFold on a fresh key. -/
theorem sourceMapFold_cons_none (c : RetrievedChunk) (rest : List RetrievedChunk)
    (m : List (String × Nat × ℝ)) (h : lookupEntry (chunkKey c) m = none) :
    sourceMapFold (c :: rest) m =
      sourceMapFold rest (setEntry (chunkKey c) (effPage c, c.score) m) := by
  simp only [sourceMapFold, h]

/-- Unfolding sourceMapFold when a later chunk strictly improves the
score. -/
theorem sourceMapFold_cons_some_lt (c : RetrievedChunk) (rest : List RetrievedChunk)
    (m : List (String × Nat × ℝ)) (pv : Nat) (sv : ℝ)
    (h : lookupEntry (chunkKey c) m = some (pv, sv)) (hlt : sv < c.score) :
    sourceMapFold (c :: rest) m =
      sourceMapFold rest (setEntry (chunkKey c) (effPage c, c.score) m) := by
  simp only [sourceMapFold, h, if_pos hlt]

/-- Unfolding sourceMapFold when the existing entry is kept. -/
theorem sourceMapFold_cons_some_ge (c : RetrievedChunk) (rest : List RetrievedChunk)
    (m : List (String × Nat × ℝ)) (pv : Nat) (sv : ℝ)
    (h : lookupEntry (chunkKey c) m = some (pv, sv)) (hge : ¬ (sv < c.score)) :
    sourceMapFold (c :: rest) m = sourceMapFold rest m := by
  simp only [sourceMapFold, h, if_neg hge]

/-- The fold preserves nodup keys. -/
theorem fold_keys_nodup :
    ∀ (chunks : List RetrievedChunk) (m : List (String × Nat × ℝ)),
      (mapKeys m).Nodup → (mapKeys (sourceMapFold chunks m)).Nodup := by
  intro chunks
  induction chunks with
  | nil => intro m h; exact h
  | cons c rest ih =>
    intro m h
    cases hl : lookupEntry (chunkKey c) m with
    | none =>
      rw [sourceMapFold_cons_none c rest m hl]
      exact ih _ (mapKeys_setEntry_nodup m _ _ h)
    | some v =>
      rcases v with ⟨pv, sv⟩
      by_cases hlt : sv < c.score
      · rw [sourceMapFold_cons_some_lt c rest m pv sv hl hlt]
        exact ih _ (mapKeys_setEntry_nodup m _ _ h)
      · rw [sourceMapFold_cons_some_ge c rest m pv sv hl hlt]
        exact ih _ h

/-- The fold only ever adds keys. -/
theorem fold_keys_subset :
    ∀ (chunks : List RetrievedChunk) (m : List (String × Nat × ℝ)) (k : String),
      k ∈ mapKeys m → k ∈ mapKeys (sourceMapFold chunks m) := by
  intro chunks
  induction chunks with
  | nil => intro m k h; exact h
  | cons c rest ih =>
    intro m k h
    have hset : k ∈ mapKeys (setEntry (chunkKey c) (effPage c, c.score) m) := by
      by_cases hck : chunkKey c ∈ mapKeys m
      · rwa [mapKeys_setEntry_of_mem m _ _ hck]
      · rw [setEntry_of_not_mem m _ _ hck]
        simp only [mapKeys, List.map_append, List.mem_append]
        exact Or.inl h
    cases hl : lookupEntry (chunkKey c) m with
    | none =>
      rw [sourceMapFold_cons_none c rest m hl]
      exact ih _ k hset
    | some v =>
      rcases v with ⟨pv, sv⟩
      by_cases hlt : sv < c.score
      · rw [sourceMapFold_cons_some_lt c rest m pv sv hl hlt]
        exact ih _ k hset
      · rw [sourceMapFold_cons_some_ge c rest m pv sv hl hlt]
        exact ih _ k h

/-- Every processed chunk's key is present in the fold result. -/
theorem fold_key_of_chunk :
    ∀ (chunks : List RetrievedChunk) (m : List (String × Nat × ℝ))
      (c : RetrievedChunk), c ∈ chunks →
      chunkKey c ∈ mapKeys (sourceMapFold chunks m) := by
  intro chunks
  induction chunks with
  | nil => intro m c h; simp at h
  | cons d rest ih =>
    intro m c h
    rcases List.mem_cons.mp h with h1 | h1
    · subst h1
      cases hl : lookupEntry (chunkKey c) m with
      | none =>
        rw [sourceMapFold_cons_none c rest m hl]
        exact fold_keys_subset rest _ _ (key_mem_of_mem (setEntry_self_mem m _ _))
      | some v =>
        rcases v with ⟨pv, sv⟩
        have hmem : chunkKey c ∈ mapKeys m := key_mem_of_mem (lookupEntry_some_mem m _ _ hl)
        by_cases hlt : sv < c.score
        · rw [sourceMapFold_cons_some_lt c rest m pv sv hl hlt]
          refine fold_keys_subset rest _ _ ?_
          rwa [mapKeys_setEntry_of_mem m _ _ hmem]
        · rw [sourceMapFold_cons_some_ge c rest m pv sv hl hlt]
          exact fold_keys_subset rest _ _ hmem
    · cases hl : lookupEntry (chunkKey d) m with
      | none =>
        rw [sourceMapFold_cons_none d rest m hl]
        exact ih _ c h1
      | some v =>
        rcases v with ⟨pv, sv⟩
        by_cases hlt : sv < d.score
        · rw [sourceMapFold_cons_some_lt d rest m pv sv hl hlt]
          exact ih _ c h1
        · rw [sourceMapFold_cons_some_ge d rest m pv sv hl hlt]
          exact ih _ c h1


/-- The fold's entries are maximal: every entry of the folded map either
came from the initial map or from a chunk with the entry's key; its score
dominates every processed chunk sharing the key and every initial entry at
that key. -/
theorem fold_mem_spec :
    ∀ (chunks : List RetrievedChunk) (m : List (String × Nat × ℝ)),
      (mapKeys m).Nodup →
      ∀ k p s, (k, p, s) ∈ sourceMapFold chunks m →
        ((k, p, s) ∈ m ∨ ∃ c ∈ chunks, chunkKey c = k ∧ effPage c = p ∧ c.score = s) ∧
        (∀ c ∈ chunks, chunkKey c = k → c.score ≤ s) ∧
        (∀ p0 s0, (k, p0, s0) ∈ m → s0 ≤ s) := by
  intro chunks
  induction chunks with
  | nil =>
    intro m hnd k p s hmem
    refine ⟨Or.inl hmem, ?_, ?_⟩
    · intro c hc; simp at hc
    · intro p0 s0 h0
      have := nodup_unique m k (p0, s0) (p, s) hnd h0 hmem
      exact le_of_eq ((Prod.mk.injEq _ _ _ _).mp this).2
  | cons c rest ih =>
    intro m hnd k p s hmem
    cases hl : lookupEntry (chunkKey c) m with
    | none =>
      have hknotin : ¬ chunkKey c ∈ mapKeys m := (lookupEntry_none_iff m _).mp hl
      have hnd1 : (mapKeys (setEntry (chunkKey c) (effPage c, c.score) m)).Nodup :=
        mapKeys_setEntry_nodup m _ _ hnd
      rw [sourceMapFold_cons_none c rest m hl] at hmem
      obtain ⟨ho, hrest, hm1⟩ := ih _ hnd1 k p s hmem
      have hm1set : setEntry (chunkKey c) (effPage c, c.score) m =
          m ++ [(chunkKey c, (effPage c, c.score))] := setEntry_of_not_mem m _ _ hknotin
      refine ⟨?_, ?_, ?_⟩
      · rcases ho with h1 | h1
        · rw [hm1set] at h1
          rcases List.mem_append.mp h1 with h2 | h2
          · exact Or.inl h2
          · have heq := (Prod.mk.injEq _ _ _ _).mp (List.mem_singleton.mp h2)
            have hv := (Prod.mk.injEq _ _ _ _).mp heq.2
            exact Or.inr ⟨c, List.mem_cons_self _ _, heq.1.symm, hv.1.symm, hv.2.symm⟩
        · rcases h1 with ⟨c2, hc2, hh⟩
          exact Or.inr ⟨c2, List.mem_cons_of_mem _ hc2, hh⟩
      · intro c2 h2 hkey
        rcases List.mem_cons.mp h2 with h3 | h3
        · refine hm1 (effPage c2) c2.score ?_
          rw [← hkey, h3]
          exact setEntry_self_mem m _ _
        · exact hrest c2 h3 hkey
      · intro p0 s0 h0
        refine hm1 p0 s0 ?_
        rw [hm1set]
        exact List.mem_append.mpr (Or.inl h0)
    | some v =>
      rcases v with ⟨pv, sv⟩
      have hcmem : (chunkKey c, (pv, sv)) ∈ m := lookupEntry_some_mem m _ _ hl
      by_cases hlt : sv < c.score
      · have hnd1 : (mapKeys (setEntry (chunkKey c) (effPage c, c.score) m)).Nodup :=
          mapKeys_setEntry_nodup m _ _ hnd
        rw [sourceMapFold_cons_some_lt c rest m pv sv hl hlt] at hmem
        obtain ⟨ho, hrest, hm1⟩ := ih _ hnd1 k p s hmem
        refine ⟨?_, ?_, ?_⟩
        · rcases ho with h1 | h1
          · by_cases hk : k = chunkKey c
            · rw [hk] at h1
              have hv := (Prod.mk.injEq _ _ _ _).mp
                ((setEntry_mem_self_iff m (chunkKey c) (effPage c, c.score) (p, s) hnd).mp h1)
              exact Or.inr ⟨c, List.mem_cons_self _ _, hk.symm, hv.1.symm, hv.2.symm⟩
            · rw [setEntry_mem_ne m (chunkKey c) k (effPage c, c.score) (p, s) hk] at h1
              exact Or.inl h1
          · rcases h1 with ⟨c2, hc2, hh⟩
            exact Or.inr ⟨c2, List.mem_cons_of_mem _ hc2, hh⟩
        · intro c2 h2 hkey
          rcases List.mem_cons.mp h2 with h3 | h3
          · refine hm1 (effPage c2) c2.score ?_
            rw [← hkey, h3]
            exact setEntry_self_mem m _ _
          · exact hrest c2 h3 hkey
        · intro p0 s0 h0
          by_cases hk : k = chunkKey c
          · have huniq := nodup_unique m k (p0, s0) (pv, sv) hnd h0 (by
              rw [hk]; exact hcmem)
            have hs0 : s0 = sv := ((Prod.mk.injEq _ _ _ _).mp huniq).2
            have hcs : c.score ≤ s := by
              refine hm1 (effPage c) c.score ?_
              rw [hk]
              exact setEntry_self_mem m _ _
            rw [hs0]
            exact le_trans (le_of_lt hlt) hcs
          · refine hm1 p0 s0 ?_
            rw [setEntry_mem_ne m (chunkKey c) k (effPage c, c.score) (p0, s0) hk]
            exact h0
      · rw [sourceMapFold_cons_some_ge c rest m pv sv hl hlt] at hmem
        obtain ⟨ho, hrest, hm⟩ := ih m hnd k p s hmem
        refine ⟨?_, ?_, ?_⟩
        · rcases ho with h1 | h1
          · exact Or.inl h1
          · rcases h1 with ⟨c2, hc2, hh⟩
            exact Or.inr ⟨c2, List.mem_cons_of_mem _ hc2, hh⟩
        · intro c2 h2 hkey
          rcases List.mem_cons.mp h2 with h3 | h3
          · have hkc : (k, (pv, sv)) ∈ m := by
              rw [← hkey, h3]
              exact hcmem
            have hsv : sv ≤ s := hm pv sv hkc
            rw [h3]
            exact le_trans (not_lt.mp hlt) hsv
          · exact hrest c2 h3 hkey
        · exact hm

/-- C3 counterexample: a source identifier containing a colon is truncated
by the `key.split(":")[0]` projection, so the returned entry does not carry
the original source identifier. -/
theorem C3_cex :
    extractSources [colonChunk] = [SourceEntry.mk "a" 1 1] ∧ ¬ ("a" = "a:b") := by
  constructor
  · rfl
  · decide

/-- C3 amended: extractSources returns one entry per distinct stringified
source:page key (source and page taken with their JavaScript falsy
defaults), each entry carrying the page and score of a maximal-score chunk
of its key group (no chunk of the group scores higher), and as source the
portion of the key before the first colon, which equals the original
source exactly when it is colon-free; the list is sorted by descending
score. -/
theorem C3_extract_sources (chunks : List RetrievedChunk) :
    List.Sorted (fun x y : ℝ => y ≤ x) ((extractSources chunks).map (fun e => e.score)) ∧
    (extractSources chunks).length = ((chunks.map chunkKey).dedup).length ∧
    ∀ c ∈ chunks, ∃ e ∈ extractSources chunks,
      e.source = splitFirstSegment (chunkKey c) ∧
      (∀ c2 ∈ chunks, chunkKey c2 = chunkKey c → c2.score ≤ e.score) ∧
      (∃ c2 ∈ chunks, chunkKey c2 = chunkKey c ∧ effPage c2 = e.page ∧ c2.score = e.score) := by
  have hunfold : extractSources chunks =
      List.insertionSort (fun a b : SourceEntry => b.score ≤ a.score)
        ((sourceMapFold chunks []).map (fun e =>
          SourceEntry.mk (splitFirstSegment e.1) e.2.1 e.2.2)) := rfl
  have hperm := List.perm_insertionSort (fun a b : SourceEntry => b.score ≤ a.score)
    ((sourceMapFold chunks []).map (fun e =>
      SourceEntry.mk (splitFirstSegment e.1) e.2.1 e.2.2))
  have hndnil : (mapKeys ([] : List (String × Nat × ℝ))).Nodup := by
    simp [mapKeys]
  refine ⟨?_, ?_, ?_⟩
  · rw [hunfold]
    exact List.Pairwise.map (fun e : SourceEntry => e.score) (fun a b hab => hab)
      (List.sorted_insertionSort _ _)
  · have hnodupKeys : (mapKeys (sourceMapFold chunks [])).Nodup :=
      fold_keys_nodup chunks [] hndnil
    have hmemiff : ∀ k, k ∈ mapKeys (sourceMapFold chunks []) ↔
        k ∈ (chunks.map chunkKey).dedup := by
      intro k
      constructor
      · intro hk
        rcases List.mem_map.mp hk with ⟨e, he, hek⟩
        rcases e with ⟨k1, p1, s1⟩
        have hek2 : k1 = k := hek
        have he2 : (k, p1, s1) ∈ sourceMapFold chunks [] := by
          rw [← hek2]; exact he
        have hspec := (fold_mem_spec chunks [] hndnil k p1 s1 he2).1
        rcases hspec with h1 | ⟨c2, hc2, hkey, _, _⟩
        · simp at h1
        · rw [List.mem_dedup]
          exact List.mem_map.mpr ⟨c2, hc2, hkey⟩
      · intro hk
        rcases List.mem_map.mp (List.mem_dedup.mp hk) with ⟨c2, hc2, hkey⟩
        rw [← hkey]
        exact fold_key_of_chunk chunks [] c2 hc2
    have hpermkeys : (mapKeys (sourceMapFold chunks [])).Perm ((chunks.map chunkKey).dedup) :=
      (List.perm_ext_iff_of_nodup hnodupKeys (List.nodup_dedup _)).mpr hmemiff
    calc (extractSources chunks).length
        = ((sourceMapFold chunks []).map (fun e =>
            SourceEntry.mk (splitFirstSegment e.1) e.2.1 e.2.2)).length := by
          rw [hunfold]; exact hperm.length_eq
      _ = (sourceMapFold chunks []).length := List.length_map _ _
      _ = (mapKeys (sourceMapFold chunks [])).length := (List.length_map _ _).symm
      _ = ((chunks.map chunkKey).dedup).length := hpermkeys.length_eq
  · intro c hc
    have hkmem : chunkKey c ∈ mapKeys (sourceMapFold chunks []) :=
      fold_key_of_chunk chunks [] c hc
    rcases List.mem_map.mp hkmem with ⟨e, he, hek⟩
    rcases e with ⟨k1, p1, s1⟩
    have hek2 : k1 = chunkKey c := hek
    have he2 : (chunkKey c, p1, s1) ∈ sourceMapFold chunks [] := by
      rw [← hek2]; exact he
    have hspec := fold_mem_spec chunks [] hndnil (chunkKey c) p1 s1 he2
    refine ⟨SourceEntry.mk (splitFirstSegment (chunkKey c)) p1 s1, ?_, rfl, ?_, ?_⟩
    · rw [hunfold]
      exact hperm.mem_iff.mpr (List.mem_map.mpr ⟨(chunkKey c, p1, s1), he2, rfl⟩)
    · intro c2 h2 hkey2
      exact hspec.2.1 c2 h2 hkey2
    · rcases hspec.1 with h1 | ⟨c2, hc2, hkey, hpage, hscore⟩
      · simp at h1
      · exact ⟨c2, hc2, hkey, hpage, hscore⟩

/-- Witness for C3 at a concrete pair of chunks sharing a key with
different scores. -/
theorem C3_witness :
    List.Sorted (fun x y : ℝ => y ≤ x)
      ((extractSources [dupChunk1, dupChunk2]).map (fun e => e.score)) ∧
    (extractSources [dupChunk1, dupChunk2]).length =
      (([dupChunk1, dupChunk2].map chunkKey).dedup).length ∧
    ∀ c ∈ [dupChunk1, dupChunk2], ∃ e ∈ extractSources [dupChunk1, dupChunk2],
      e.source = splitFirstSegment (chunkKey c) ∧
      (∀ c2 ∈ [dupChunk1, dupChunk2], chunkKey c2 = chunkKey c → c2.score ≤ e.score) ∧
      (∃ c2 ∈ [dupChunk1, dupChunk2], chunkKey c2 = chunkKey c ∧ effPage c2 = e.page ∧
        c2.score = e.score) :=
  C3_extract_sources [dupChunk1, dupChunk2]

/-! ## Concrete evaluations for the tool-round counterexample -/

/-- cosineSimilarity from an evaluated cosine value. -/
theorem cs_eval (x y : List ℝ) (h : x.length = y.length) (v : ℝ)
    (hv : cosineValue x y = v) : cosineSimilarity x y = Except.ok v := by
  rw [cosineSimilarity, if_pos h, hv]

theorem cv_a1_a1 : cosineValue axis1 axis1 = 1 := by
  have h : dotp axis1 axis1 = 1 := by norm_num [dotp, axis1]
  rw [cosineValue, h, Real.sqrt_one]
  norm_num

theorem cv_a2_a2 : cosineValue axis2 axis2 = 1 := by
  have h : dotp axis2 axis2 = 1 := by norm_num [dotp, axis2]
  rw [cosineValue, h, Real.sqrt_one]
  norm_num

theorem cv_a1_a2 : cosineValue axis1 axis2 = 0 := by
  have h : dotp axis1 axis2 = 0 := by norm_num [dotp, axis1, axis2]
  rw [cosineValue, h]
  norm_num

theorem cv_a1_a3 : cosineValue axis1 axis3 = 0 := by
  have h : dotp axis1 axis3 = 0 := by norm_num [dotp, axis1, axis3]
  rw [cosineValue, h]
  norm_num

theorem cv_a2_a1 : cosineValue axis2 axis1 = 0 := by
  have h : dotp axis2 axis1 = 0 := by norm_num [dotp, axis2, axis1]
  rw [cosineValue, h]
  norm_num

theorem cv_a2_a3 : cosineValue axis2 axis3 = 0 := by
  have h : dotp axis2 axis3 = 0 := by norm_num [dotp, axis2, axis3]
  rw [cosineValue, h]
  norm_num

/-- Query of the question embedding against the three-record store. -/
theorem qv_cex_q1 : queryVectorStore cexStore axis1 5 =
    Except.ok ⟨["A", "B", "C"], [1, 0, 0], [metaA, metaB, metaC]⟩ := by
  have hA : cosineSimilarity axis1 axis1 = Except.ok 1 := cs_eval axis1 axis1 rfl 1 cv_a1_a1
  have hB : cosineSimilarity axis1 axis2 = Except.ok 0 := cs_eval axis1 axis2 (by rfl) 0 cv_a1_a2
  have hC : cosineSimilarity axis1 axis3 = Except.ok 0 := cs_eval axis1 axis3 (by rfl) 0 cv_a1_a3
  norm_num [queryVectorStore, cexStore, List.enum, List.enumFrom, mapOrThrow,
    hA, hB, hC, List.insertionSort, List.orderedInsert]

/-- Query of the tool-search embedding against the three-record store. -/
theorem qv_cex_q2 : queryVectorStore cexStore axis2 5 =
    Except.ok ⟨["B", "A", "C"], [1, 0, 0], [metaB, metaA, metaC]⟩ := by
  have hA : cosineSimilarity axis2 axis1 = Except.ok 0 := cs_eval axis2 axis1 (by rfl) 0 cv_a2_a1
  have hB : cosineSimilarity axis2 axis2 = Except.ok 1 := cs_eval axis2 axis2 rfl 1 cv_a2_a2
  have hC : cosineSimilarity axis2 axis3 = Except.ok 0 := cs_eval axis2 axis3 (by rfl) 0 cv_a2_a3
  norm_num [queryVectorStore, cexStore, List.enum, List.enumFrom, mapOrThrow,
    hA, hB, hC, List.insertionSort, List.orderedInsert]

/-- Selection of the initial retrieval for the counterexample run. -/
theorem sel_eval : filterAndRankChunks (3 / 10)
    [⟨"A", (1 : ℝ), metaA⟩, ⟨"B", 0, metaB⟩, ⟨"C", 0, metaC⟩] 3000 =
    [⟨"A", 1, metaA⟩] := by
  have ht : estimateTokens "A" = 1 := rfl
  norm_num [filterAndRankChunks, List.insertionSort, List.orderedInsert, packGreedy, ht]

/-- The tool search formats some payload on the counterexample store. -/
theorem search_eval : ∃ t, searchManualForContext defaultRAGConfig cexStore cexEmbed cexFmt
    "R2" 5 = Except.ok t := by
  have hembed : cexEmbed "R2" = axis2 := rfl
  have hfilt : toolFilteredChunks (3 / 10)
      ⟨["B", "A", "C"], [1, 0, 0], [metaB, metaA, metaC]⟩ = [⟨"B", 1, metaB⟩] := by
    norm_num [toolFilteredChunks, chunksOfResult, List.enum, List.enumFrom]
  cases hsc : searchManualForContext defaultRAGConfig cexStore cexEmbed cexFmt "R2" 5 with
  | ok t => exact ⟨t, rfl⟩
  | error e =>
    simp only [searchManualForContext, hembed, qv_cex_q2] at hsc
    norm_num [hfilt, defaultRAGConfig] at hsc
    exact Except.noConfusion hsc

/-- The tool handler pushes the raw tool-search chunks, unfiltered. -/
theorem handler_eval (T : String)
    (hT : searchManualForContext defaultRAGConfig cexStore cexEmbed cexFmt "R2" 5 =
      Except.ok T) :
    toolHandler defaultRAGConfig cexStore cexEmbed cexFmt [⟨"A", (1 : ℝ), metaA⟩]
      "search_manual" "R2" =
      (Except.ok T,
        [⟨"A", 1, metaA⟩, ⟨"B", 1, metaB⟩, ⟨"A", 0, metaA⟩, ⟨"C", 0, metaC⟩]) := by
  have hembed : cexEmbed "R2" = axis2 := rfl
  norm_num [toolHandler, hT, hembed, qv_cex_q2, chunksOfResult, List.enum, List.enumFrom]

/-- The source map built from all chunks tracked in the counterexample
run: the low-scoring tool chunk for source c gets its own entry. -/
theorem fold_cex : sourceMapFold
    [⟨"A", (1 : ℝ), metaA⟩, ⟨"B", 1, metaB⟩, ⟨"A", 0, metaA⟩, ⟨"C", 0, metaC⟩] [] =
    [("a:1", (1, (1 : ℝ))), ("b:2", (2, 1)), ("c:3", (3, 0))] := by
  have s1 : sourceMapFold
      [⟨"A", (1 : ℝ), metaA⟩, ⟨"B", 1, metaB⟩, ⟨"A", 0, metaA⟩, ⟨"C", 0, metaC⟩] [] =
      sourceMapFold [⟨"B", (1 : ℝ), metaB⟩, ⟨"A", 0, metaA⟩, ⟨"C", 0, metaC⟩]
        [("a:1", (1, (1 : ℝ)))] := by
    rw [sourceMapFold_cons_none (⟨"A", (1 : ℝ), metaA⟩ : RetrievedChunk)
      [⟨"B", 1, metaB⟩, ⟨"A", 0, metaA⟩, ⟨"C", 0, metaC⟩] [] rfl]
    rfl
  have s2 : sourceMapFold [⟨"B", (1 : ℝ), metaB⟩, ⟨"A", 0, metaA⟩, ⟨"C", 0, metaC⟩]
      [("a:1", (1, (1 : ℝ)))] =
      sourceMapFold [⟨"A", (0 : ℝ), metaA⟩, ⟨"C", 0, metaC⟩]
        [("a:1", (1, (1 : ℝ))), ("b:2", (2, 1))] := by
    rw [sourceMapFold_cons_none (⟨"B", (1 : ℝ), metaB⟩ : RetrievedChunk)
      [⟨"A", 0, metaA⟩, ⟨"C", 0, metaC⟩] [("a:1", (1, (1 : ℝ)))] rfl]
    rfl
  have s3 : sourceMapFold [⟨"A", (0 : ℝ), metaA⟩, ⟨"C", 0, metaC⟩]
      [("a:1", (1, (1 : ℝ))), ("b:2", (2, 1))] =
      sourceMapFold [⟨"C", (0 : ℝ), metaC⟩]
        [("a:1", (1, (1 : ℝ))), ("b:2", (2, 1))] := by
    rw [sourceMapFold_cons_some_ge (⟨"A", (0 : ℝ), metaA⟩ : RetrievedChunk)
      [⟨"C", 0, metaC⟩] [("a:1", (1, (1 : ℝ))), ("b:2", (2, 1))] 1 1 rfl (by norm_num)]
  have s4 : sourceMapFold [⟨"C", (0 : ℝ), metaC⟩]
      [("a:1", (1, (1 : ℝ))), ("b:2", (2, 1))] =
      [("a:1", (1, (1 : ℝ))), ("b:2", (2, 1)), ("c:3", (3, 0))] := by
    rw [sourceMapFold_cons_none (⟨"C", (0 : ℝ), metaC⟩ : RetrievedChunk) []
      [("a:1", (1, (1 : ℝ))), ("b:2", (2, 1))] rfl]
    rfl
  exact s1.trans (s2.trans (s3.trans s4))

/-- The deduplicated source list of the counterexample run contains the
below-threshold entry for source c. -/
theorem es_cex : extractSources
    [⟨"A", (1 : ℝ), metaA⟩, ⟨"B", 1, metaB⟩, ⟨"A", 0, metaA⟩, ⟨"C", 0, metaC⟩] =
    [⟨"a", 1, (1 : ℝ)⟩, ⟨"b", 2, 1⟩, ⟨"c", 3, 0⟩] := by
  have hsa : splitFirstSegment "a:1" = "a" := by decide
  have hsb : splitFirstSegment "b:2" = "b" := by decide
  have hsc : splitFirstSegment "c:3" = "c" := by decide
  unfold extractSources
  rw [fold_cex]
  norm_num [hsa, hsb, hsc, List.insertionSort, List.orderedInsert]

/-- Full orchestrator run of the counterexample: one tool round, then a
final text answer; the handler state accumulates the unfiltered tool
chunks. -/
theorem run_eval (SP UP T : String)
    (hT : searchManualForContext defaultRAGConfig cexStore cexEmbed cexFmt "R2" 5 =
      Except.ok T) :
    generateChatCompletionWithTools cexLLM
      [⟨ChatRole.system, MessageContent.str SP⟩, ⟨ChatRole.user, MessageContent.str UP⟩]
      [searchManualTool] (toolHandler defaultRAGConfig cexStore cexEmbed cexFmt)
      ⟨none, none, some 3⟩ [⟨"A", (1 : ℝ), metaA⟩] =
      ⟨Except.ok "ans",
        [⟨"A", 1, metaA⟩, ⟨"B", 1, metaB⟩, ⟨"A", 0, metaA⟩, ⟨"C", 0, metaC⟩],
        [true, true]⟩ := by
  have hh := handler_eval T hT
  simp [generateChatCompletionWithTools, toolLoop, cexLLM, findTextBlock, toolUseBlocksOf,
    execTools, hh, List.find?, List.filter]

/-- C1 counterexample: in a full answerQuestion run whose tool round
retrieves a chunk scoring 0 (below the minimum score 3/10), that chunk's
(source, page) entry appears in the final deduplicated source list. -/
theorem C1_cex :
    ∃ resp, answerQuestion defaultRAGConfig cexStore cexEmbed cexLLM cexFmt "Q" [] =
      Except.ok resp ∧ SourceEntry.mk "c" 3 0 ∈ resp.sources ∧
      (0 : ℝ) < defaultRAGConfig.minScore := by
  obtain ⟨T, hT⟩ := search_eval
  have hrun := run_eval (buildSystemPrompt true)
    (buildUserPrompt cexFmt "Q" [⟨"A", (1 : ℝ), metaA⟩]) T hT
  have hq1 : queryVectorStore cexStore (cexEmbed "Q") defaultRAGConfig.topK =
      Except.ok ⟨["A", "B", "C"], [1, 0, 0], [metaA, metaB, metaC]⟩ := by
    have h1 : cexEmbed "Q" = axis1 := rfl
    have h2 : defaultRAGConfig.topK = 5 := rfl
    rw [h1, h2]
    exact qv_cex_q1
  have hchunks : chunksOfResult ⟨["A", "B", "C"], [1, 0, 0], [metaA, metaB, metaC]⟩ =
      [⟨"A", (1 : ℝ), metaA⟩, ⟨"B", 0, metaB⟩, ⟨"C", 0, metaC⟩] := rfl
  have hmin : defaultRAGConfig.minScore = 3 / 10 := rfl
  have hmax : defaultRAGConfig.maxContextTokens = 3000 := rfl
  have hfinal : answerQuestion defaultRAGConfig cexStore cexEmbed cexLLM cexFmt "Q" [] =
      Except.ok ⟨"ans",
        extractSources [⟨"A", (1 : ℝ), metaA⟩, ⟨"B", 1, metaB⟩, ⟨"A", 0, metaA⟩,
          ⟨"C", 0, metaC⟩], 4,
        estimateTokens (buildSystemPrompt true) +
          estimateTokens (buildUserPrompt cexFmt "Q" [⟨"A", (1 : ℝ), metaA⟩])⟩ := by
    simp only [answerQuestion, hq1, hchunks, hmin, hmax, sel_eval, List.map_nil,
      List.nil_append, List.singleton_append]
    rw [hrun]
    norm_num
  refine ⟨_, hfinal, ?_, ?_⟩
  · rw [es_cex]
    simp
  · rw [hmin]
    norm_num

/-- C1 amended: no chunk below the minimum score ever reaches the context
shown to the model — neither the packed initial context
(filterAndRankChunks) nor the formatted tool-search payload
(toolFilteredChunks); the final deduplicated source list, however, also
receives the raw tool-round query results without this filter, so it may
contain entries scoring below the minimum. -/
theorem C1_threshold_filtering :
    (∀ (minScore : ℝ) (chunks : List RetrievedChunk) (maxTokens : Nat)
      (c : RetrievedChunk), c ∈ filterAndRankChunks minScore chunks maxTokens →
      minScore ≤ c.score) ∧
    (∀ (minScore : ℝ) (results : QueryResult) (c : RetrievedChunk),
      c ∈ toolFilteredChunks minScore results → minScore ≤ c.score) := by
  constructor
  · intro minScore chunks maxTokens c hc
    have heq : filterAndRankChunks minScore chunks maxTokens =
        packGreedy maxTokens (List.insertionSort (fun a b => b.score ≤ a.score)
          (chunks.filter (fun c => decide (minScore ≤ c.score)))) 0 := by
      by_cases hempty : (chunks.filter (fun c => decide (minScore ≤ c.score))).length = 0
      · have hnil := List.length_eq_zero.mp hempty
        simp [filterAndRankChunks, hempty, hnil, packGreedy]
      · simp [filterAndRankChunks, hempty]
    rw [heq] at hc
    rcases packGreedy_append maxTokens (List.insertionSort (fun a b => b.score ≤ a.score)
      (chunks.filter (fun c => decide (minScore ≤ c.score)))) 0 with ⟨rest, hrest⟩
    have hmem1 : c ∈ List.insertionSort (fun a b => b.score ≤ a.score)
        (chunks.filter (fun c => decide (minScore ≤ c.score))) := by
      rw [hrest]
      exact List.mem_append.mpr (Or.inl hc)
    have hmem2 : c ∈ chunks.filter (fun c => decide (minScore ≤ c.score)) :=
      (List.perm_insertionSort _ _).mem_iff.mp hmem1
    exact of_decide_eq_true (List.mem_filter.mp hmem2).2
  · intro minScore results c hc
    exact of_decide_eq_true (List.mem_filter.mp hc).2

/-- Witness for C1 at a concrete chunk passing the filter. -/
theorem C1_witness :
    bigChunk ∈ filterAndRankChunks (3 / 10) [bigChunk] 3000 ∧
    (3 / 10 : ℝ) ≤ bigChunk.score := by
  have ht : estimateTokens "abcd" = 1 := rfl
  have heval : filterAndRankChunks (3 / 10) [bigChunk] 3000 = [bigChunk] := by
    norm_num [filterAndRankChunks, bigChunk, List.insertionSort, List.orderedInsert,
      packGreedy, ht]
  have hmem : bigChunk ∈ filterAndRankChunks (3 / 10) [bigChunk] 3000 := by
    rw [heval]
    exact List.mem_singleton_self _
  exact ⟨hmem, C1_threshold_filtering.1 (3 / 10) [bigChunk] 3000 bigChunk hmem⟩
